import Mathlib

/-!
# Maze generation of `src/rsc/main.cpp`

A shallow embedding of the classes `Maze` and `Player` of `src/rsc/main.cpp`
and proofs about the generated grid.

Conventions of the embedding.

* `std::vector<std::vector<int>>` is `List (List Int)`, indexed `maze[x][y]`.
  A read or write outside the vector is undefined behaviour in C++; here it makes
  the enclosing computation return `none`.
* C++ `int` values are `Int`; every coordinate the generator computes lies within
  two cells of the grid, so no machine overflow is involved.
* `std::random_shuffle` on the four directions returns some permutation of them
  that depends on the state of the global pseudo-random source.  A seeding
  function `srand : Int → Nat → Shuffle` gives, for a seed, the permutation that the
  `k`-th call of `std::random_shuffle` after `std::srand(seed)` produces.  The theorems
  quantify over every `srand`, that is over every outcome of the shuffles.
* `while (!stack.empty())` is run with a bound `fuel` on its number of iterations
  and the recursive call `generateMaze()` with a bound `regen` on its depth; running
  out of either also gives `none`.  The theorems show that `fuelBound w h` iterations
  and depth 0 suffice on a grid of odd sizes at least 3.
* The stack `std::vector<std::pair<int, int>>` is a list whose head is `stack.back()`.
-/

namespace MazeGame

/-! ## The grid: `std::vector<std::vector<int>> maze` -/

/-- Contents of the field `maze`: column `x` is the `x`-th inner vector. -/
abbrev Grid := List (List Int)

/-- The read `maze[x][y]`; `none` when an index is outside its vector. -/
def Grid.get? (g : Grid) (x y : Int) : Option Int :=
  if 0 ≤ x ∧ 0 ≤ y then
    match g[x.toNat]? with
    | none => none
    | some col => col[y.toNat]?
  else none

/-- The write `maze[x][y] = v`; `none` when an index is outside its vector. -/
def Grid.set (g : Grid) (x y : Int) (v : Int) : Option Grid :=
  if 0 ≤ x ∧ 0 ≤ y then
    match g[x.toNat]? with
    | none => none
    | some col =>
      if y.toNat < col.length then some (List.set g x.toNat (List.set col y.toNat v)) else none
  else none

/-- Class `Maze`: the private fields `maze`, `width`, `height`, `cellSize`. -/
structure Maze where
  maze : Grid
  width : Int
  height : Int
  cellSize : Int
deriving DecidableEq

/-- The four candidate offsets, in the order of the initialiser list
`{0, -2}, {2, 0}, {0, 2}, {-2, 0}`. -/
def directions : List (Int × Int) := [(0, -2), (2, 0), (0, 2), (-2, 0)]

/-- An outcome of `std::random_shuffle(directions.begin(), directions.end())`:
the four directions in some order. -/
abbrev Shuffle := { l : List (Int × Int) // l.Perm directions }

/-- Method `Maze::initializeMaze`: `width` columns of `height` cells, all `1`.
A negative size makes the `std::vector` constructor throw. -/
def initializeMaze (m : Maze) : Option Maze :=
  if 0 ≤ m.width ∧ 0 ≤ m.height then
    some { m with maze := List.replicate m.width.toNat (List.replicate m.height.toNat 1) }
  else none

/-- The `for (const auto& dir : directions)` loop of `generateMaze` for the popped
cell `(x, y)`: `ds` are the directions still to be tried, `st` the stack (top first). -/
def carveDirs (width height x y : Int) :
    List (Int × Int) → Grid → List (Int × Int) → Option (Grid × List (Int × Int))
  | [], g, st => some (g, st)
  | dir :: ds, g, st =>
    let nx := x + dir.1
    let ny := y + dir.2
    if nx > 0 ∧ nx < width - 1 ∧ ny > 0 ∧ ny < height - 1 then
      match g.get? nx ny with
      | none => none
      | some v =>
        if v = 1 then
          match g.set nx ny 0 with
          | none => none
          | some g1 =>
            match g1.set (x + Int.tdiv dir.1 2) (y + Int.tdiv dir.2 2) 0 with
            | none => none
            | some g2 => carveDirs width height x y ds g2 ((nx, ny) :: st)
        else carveDirs width height x y ds g st
    else carveDirs width height x y ds g st

/-- State of the carving loop: the grid, the stack (top first) and the number of
calls of `std::random_shuffle` made so far. -/
structure CarveState where
  grid : Grid
  stack : List (Int × Int)
  shuffles : Nat

/-- The state after `n` iterations of `while (!stack.empty())`, or after fewer when
the stack became empty before. -/
def carveIter (width height : Int) (rs : Nat → Shuffle) : Nat → CarveState → Option CarveState
  | 0, s => some s
  | n + 1, s =>
    match s.stack with
    | [] => some s
    | (x, y) :: st =>
      match carveDirs width height x y (rs s.shuffles).val s.grid st with
      | none => none
      | some (g, st1) => carveIter width height rs n ⟨g, st1, s.shuffles + 1⟩

/-- The loop `while (!stack.empty())`, run for at most `fuel` iterations. -/
def carveLoop (width height : Int) (rs : Nat → Shuffle) (fuel : Nat) (s : CarveState) :
    Option Grid :=
  match carveIter width height rs fuel s with
  | none => none
  | some s1 => if s1.stack.isEmpty then some s1.grid else none

/-- The inner loop `for (int y = height - 2; y >= 0; --y)` of the scan in column `x`,
with `n = y + 1` rows left: does it find a cell equal to `0`? -/
def scanColumn (g : Grid) (x : Int) : Nat → Option Bool
  | 0 => some false
  | n + 1 =>
    match g.get? x n with
    | none => none
    | some v => if v = 0 then some true else scanColumn g x n

/-- The outer loop `for (int x = 1; x < width - 1 && !pathExists; ++x)` from column `x`
on, with `n = width - 1 - x` columns left.  Returns the grid and `pathExists`. -/
def scanFrom (height : Int) (g : Grid) : Int → Nat → Option (Grid × Bool)
  | _, 0 => some (g, false)
  | x, n + 1 =>
    match scanColumn g x (height - 1).toNat with
    | none => none
    | some true =>
      match g.set x (height - 2) 0 with
      | none => none
      | some g1 => some (g1, true)
    | some false => scanFrom height g (x + 1) n

/-- The body of `Maze::generateMaze` with the shuffles `rs` from `maze[startX][startY] = 0`
up to and including the opening of the entrance and of the exit. -/
def carvePass (rs : Nat → Shuffle) (fuel : Nat) (m : Maze) : Option Grid :=
  match m.maze.set 1 1 0 with
  | none => none
  | some g0 =>
    match carveLoop m.width m.height rs fuel ⟨g0, [(1, 1)], 0⟩ with
    | none => none
    | some g1 =>
      match g1.set 1 0 0 with
      | none => none
      | some g2 => g2.set (m.width - 2) (m.height - 1) 0

/-- One pass of the body of `Maze::generateMaze` with the shuffles `rs`, up to and
including the scan: the grid and the final value of `pathExists`. -/
def generatePass (rs : Nat → Shuffle) (fuel : Nat) (m : Maze) : Option (Grid × Bool) :=
  match carvePass rs fuel m with
  | none => none
  | some g3 => scanFrom m.height g3 1 (m.width - 2).toNat

/-- The pseudo-random source as `generateMaze` seeds it: `std::srand(seed)` for a
nonzero seed, `std::srand(std::time(0))` otherwise. -/
def seedShuffles (srand : Int → Nat → Shuffle) (time : Int) (seed : Int) : Nat → Shuffle :=
  if seed ≠ 0 then srand seed else srand time

/-- Method `Maze::generateMaze(int seed = 0)`.  The call at regeneration depth `n` (the
outermost call has depth 0) gets `clock n` from `std::time(0)` when it reads the clock;
`regen` bounds the depth of the recursive call `generateMaze()` and `fuel` the iterations
of each carving loop. -/
def generateMaze (srand : Int → Nat → Shuffle) (fuel : Nat) :
    Nat → (Nat → Int) → Maze → Int → Option Maze
  | regen, clock, m, seed =>
    match generatePass (seedShuffles srand (clock 0) seed) fuel m with
    | none => none
    | some (g, pathExists) =>
      if pathExists then some { m with maze := g }
      else
        match regen with
        | 0 => none
        | r + 1 => generateMaze srand fuel r (fun n => clock (n + 1)) { m with maze := g } 0

/-- The constructor `Maze::Maze(int w, int h, int size)`. -/
def Maze.new (srand : Int → Nat → Shuffle) (fuel regen : Nat) (clock : Nat → Int)
    (w h size : Int) : Option Maze :=
  let width := if Int.tmod w 2 = 0 then w + 1 else w
  let height := if Int.tmod h 2 = 0 then h + 1 else h
  match initializeMaze ⟨[], width, height, size⟩ with
  | none => none
  | some m => generateMaze srand fuel regen clock m 0

/-- Method `Maze::isPath`; `none` when the read `maze[x][y]` is outside the vector. -/
def Maze.isPath (m : Maze) (x y : Int) : Option Bool :=
  if x < 0 ∨ x ≥ m.width ∨ y < 0 ∨ y ≥ m.height then some false
  else
    match m.maze.get? x y with
    | none => none
    | some v => some (decide (v = 0))

/-- Method `Maze::getWidth`. -/
def Maze.getWidth (m : Maze) : Int := m.width

/-- Method `Maze::getHeight`. -/
def Maze.getHeight (m : Maze) : Int := m.height

/-! ## Class `Player` -/

/-- Class `Player`: the coordinates `x`, `y` (texture and cell size play no part in
the movement). -/
structure Player where
  x : Int
  y : Int
deriving DecidableEq

/-- What `IsKeyPressed` answers for the four arrow keys during one call of `move`. -/
structure Keys where
  up : Bool
  down : Bool
  left : Bool
  right : Bool

/-- Method `Player::adjustPosition`. -/
def Player.adjustPosition (p : Player) : Player :=
  let p1 := if p.x < 0 then { p with x := 0 } else p
  if p1.y < 0 then { p1 with y := 0 } else p1

/-- The statement `if (IsKeyPressed(k) && maze.isPath(tx, ty)) step`: `isPath` is
evaluated only when the key is pressed. -/
def Player.tryStep (m : Maze) (key : Bool) (tx ty : Int) (moved stay : Player) : Option Player :=
  if key then
    match m.isPath tx ty with
    | none => none
    | some b => some (if b then moved else stay)
  else some stay

/-- Method `Player::move`: the four key tests in the order up, down, left, right, then
`adjustPosition`. -/
def Player.move (p : Player) (m : Maze) (k : Keys) : Option Player :=
  match Player.tryStep m k.up p.x (p.y - 1) { p with y := p.y - 1 } p with
  | none => none
  | some p1 =>
    match Player.tryStep m k.down p1.x (p1.y + 1) { p1 with y := p1.y + 1 } p1 with
    | none => none
    | some p2 =>
      match Player.tryStep m k.left (p2.x - 1) p2.y { p2 with x := p2.x - 1 } p2 with
      | none => none
      | some p3 =>
        match Player.tryStep m k.right (p3.x + 1) p3.y { p3 with x := p3.x + 1 } p3 with
        | none => none
        | some p4 => some p4.adjustPosition

/-- Method `Player::hasWon`. -/
def Player.hasWon (p : Player) (m : Maze) : Bool :=
  decide (p.x = m.getWidth - 2 ∧ p.y = m.getHeight - 2)

/-! ## Specification vocabulary -/

/-- The grid has `w` columns of `h` cells each. -/
def Grid.Dim (g : Grid) (w h : Int) : Prop :=
  (g.length : Int) = w ∧ ∀ col ∈ g, (col.length : Int) = h

/-- The cell `c = (x, y)` is Open: `maze[x][y]` exists and is `0`. -/
def Grid.isOpen (g : Grid) (c : Int × Int) : Prop := g.get? c.1 c.2 = some 0

instance (g : Grid) (c : Int × Int) : Decidable (g.isOpen c) := by
  unfold Grid.isOpen; infer_instance

/-- Manhattan adjacency: `b` is one step north, south, west or east of `a`. -/
def adj4 (a b : Int × Int) : Prop :=
  (a.1 = b.1 ∧ (a.2 = b.2 + 1 ∨ b.2 = a.2 + 1)) ∨ (a.2 = b.2 ∧ (a.1 = b.1 + 1 ∨ b.1 = a.1 + 1))

instance (a b : Int × Int) : Decidable (adj4 a b) := by
  unfold adj4; infer_instance

/-- The graph on cells whose edges join Manhattan-adjacent cells that both satisfy `O`. -/
def cellGraph (O : Int × Int → Prop) : SimpleGraph (Int × Int) where
  Adj a b := O a ∧ O b ∧ adj4 a b
  symm := by
    intro a b h
    refine ⟨h.2.1, h.1, ?_⟩
    have h3 := h.2.2
    unfold adj4 at h3 ⊢
    omega
  loopless := by
    intro a h
    have h3 := h.2.2
    unfold adj4 at h3
    omega

/-- The graph of the Open cells of a grid: edges join Manhattan-adjacent Open cells. -/
def openGraph (g : Grid) : SimpleGraph (Int × Int) := cellGraph g.isOpen

/-- An explicit path in the grid from `a` to `b`: a finite sequence of Open cells that
starts at `a`, ends at `b`, with consecutive cells Manhattan-adjacent. -/
def Grid.OpenPath (g : Grid) (a b : Int × Int) : Prop :=
  ∃ l : List (Int × Int), l.head? = some a ∧ l.getLast? = some b ∧
    (∀ c ∈ l, g.isOpen c) ∧ List.Chain' adj4 l

/-- The test of the carving loop on a target cell:
`nx > 0 && nx < width - 1 && ny > 0 && ny < height - 1`. -/
def Interior (w h : Int) (c : Int × Int) : Prop :=
  c.1 > 0 ∧ c.1 < w - 1 ∧ c.2 > 0 ∧ c.2 < h - 1

/-- A room: an interior cell with both coordinates odd. -/
def Room (w h : Int) (c : Int × Int) : Prop :=
  Interior w h c ∧ c.1 % 2 = 1 ∧ c.2 % 2 = 1

/-- Number of cells of the grid equal to `1` (Wall). -/
def Grid.walls (g : Grid) : Nat := (g.map (fun col => col.count 1)).sum

/-- The four unit steps. -/
def UnitStep (e1 e2 : Int) : Prop :=
  (e1 = 0 ∧ (e2 = 1 ∨ e2 = -1)) ∨ (e2 = 0 ∧ (e1 = 1 ∨ e1 = -1))

/-- Invariant of the carving loop; `P` holds of the cells that still wait to be
expanded (the stack, and inside the `for` loop also the popped cell). -/
structure CarveInv (w h : Int) (g : Grid) (P : Int × Int → Prop) : Prop where
  dim : g.Dim w h
  binary : ∀ a b v, g.get? a b = some v → v = 0 ∨ v = 1
  start : g.isOpen (1, 1)
  pend_room : ∀ c, P c → Room w h c ∧ g.isOpen c
  open_interior : ∀ c, g.isOpen c → Interior w h c ∧ (c.1 % 2 = 1 ∨ c.2 % 2 = 1)
  link : ∀ c, g.isOpen c → ∀ r, adj4 c r → r.1 % 2 = 1 → r.2 % 2 = 1 → g.isOpen r
  conn : ∀ c, g.isOpen c → (openGraph g).Reachable (1, 1) c
  acyclic : (openGraph g).IsAcyclic
  done : ∀ c, Room w h c → g.isOpen c → ¬ P c →
    ∀ d ∈ directions, Interior w h (c.1 + d.1, c.2 + d.2) → g.isOpen (c.1 + d.1, c.2 + d.2)

/-- The grid that `initializeMaze` builds: `w` columns of `h` cells equal to `1`. -/
def wallGrid (w h : Int) : Grid := List.replicate w.toNat (List.replicate h.toNat 1)

/-- A number of loop iterations that suffices for a `w` by `h` grid. -/
def fuelBound (w h : Int) : Nat := 2 * (w.toNat * h.toNat)

/-- Properties of the grid that one pass of the generator leaves in a `w` by `h` maze. -/
structure MazeSpec (w h : Int) (g : Grid) : Prop where
  dim : g.Dim w h
  binary : ∀ a b v, g.get? a b = some v → v = 0 ∨ v = 1
  rooms : ∀ c, Room w h c → g.isOpen c
  shape : ∀ c, g.isOpen c →
    (Interior w h c ∧ (c.1 % 2 = 1 ∨ c.2 % 2 = 1)) ∨ c = (1, 0) ∨ c = (w - 2, h - 1)
  entrance : g.isOpen (1, 0)
  exit : g.isOpen (w - 2, h - 1)
  conn : ∀ c, g.isOpen c → (openGraph g).Reachable (1, 1) c
  acyclic : (openGraph g).IsAcyclic

/-- The dimension the constructor stores for a request `w`: `(w % 2 == 0) ? w + 1 : w`. -/
def oddUp (w : Int) : Int := if Int.tmod w 2 = 0 then w + 1 else w

/-- The shuffle that leaves the directions in their initial order. -/
def shuffleId : Shuffle := ⟨directions, List.Perm.refl _⟩

/-- The shuffle that reverses the directions. -/
def shuffleRev : Shuffle := ⟨directions.reverse, List.reverse_perm _⟩

/-- A seeding function for examples: even seeds never permute, odd seeds always reverse. -/
def srandParity : Int → Nat → Shuffle :=
  fun seed _ => if seed % 2 = 0 then shuffleId else shuffleRev

/-! ## Reads and writes -/

theorem adj4_symm {a b : Int × Int} (h : adj4 a b) : adj4 b a := by
  unfold adj4 at *; omega

theorem adj4_irrefl (a : Int × Int) : ¬ adj4 a a := by
  unfold adj4; omega

theorem list_set_same {α : Type} (l : List α) (i : Nat) (a : α) (h : l[i]? = some a) :
    l.set i a = l := by
  induction l generalizing i with
  | nil => rfl
  | cons b t ih =>
    cases i with
    | zero => simp at h; simp [h]
    | succ j => simp at h; simp [ih j h]

theorem Grid.get?_range {g : Grid} {w h x y v : Int} (hd : g.Dim w h)
    (hg : g.get? x y = some v) : 0 ≤ x ∧ x < w ∧ 0 ≤ y ∧ y < h := by
  unfold Grid.get? at hg
  split at hg
  · rename_i hxy
    split at hg
    · exact absurd hg (by simp)
    · rename_i col hcol
      have hx := List.getElem?_eq_some.mp hcol
      obtain ⟨hxl, hxe⟩ := hx
      have hy := List.getElem?_eq_some.mp hg
      obtain ⟨hyl, _⟩ := hy
      have hmem : col ∈ g := hxe ▸ List.getElem_mem _
      have h1 := hd.1
      have h2 := hd.2 col hmem
      omega
  · exact absurd hg (by simp)

theorem Grid.get?_of_range {g : Grid} {w h x y : Int} (hd : g.Dim w h)
    (hx0 : 0 ≤ x) (hxw : x < w) (hy0 : 0 ≤ y) (hyh : y < h) : ∃ v, g.get? x y = some v := by
  have hxl : x.toNat < g.length := by have := hd.1; omega
  have hcol : g[x.toNat]? = some g[x.toNat] := List.getElem?_eq_getElem hxl
  have hmem : g[x.toNat] ∈ g := List.getElem_mem _
  have hyl : y.toNat < (g[x.toNat]).length := by have := hd.2 _ hmem; omega
  refine ⟨(g[x.toNat])[y.toNat], ?_⟩
  unfold Grid.get?
  rw [if_pos ⟨hx0, hy0⟩, hcol]
  exact List.getElem?_eq_getElem hyl

theorem Grid.set_of_get? {g : Grid} {x y v : Int} (u : Int) (hg : g.get? x y = some v) :
    ∃ g1, g.set x y u = some g1 := by
  unfold Grid.get? at hg
  unfold Grid.set
  split at hg
  · rename_i hxy
    rw [if_pos hxy]
    split at hg
    · exact absurd hg (by simp)
    · rename_i col hcol
      have hy := List.getElem?_eq_some.mp hg
      obtain ⟨hyl, _⟩ := hy
      exact ⟨_, if_pos hyl⟩
  · exact absurd hg (by simp)

theorem Grid.get?_set {g g1 : Grid} {x y v : Int} (hs : g.set x y v = some g1) (a b : Int) :
    g1.get? a b = if a = x ∧ b = y then some v else g.get? a b := by
  unfold Grid.set at hs
  split at hs
  · rename_i hxy
    split at hs
    · exact absurd hs (by simp)
    · rename_i col hcol
      split at hs
      · rename_i hyl
        have hx := List.getElem?_eq_some.mp hcol
        obtain ⟨hxl, hxe⟩ := hx
        simp only [Option.some.injEq] at hs
        subst hs
        unfold Grid.get?
        by_cases hab : 0 ≤ a ∧ 0 ≤ b
        · rw [if_pos hab, if_pos hab]
          by_cases hax : a = x
          · subst hax
            rw [List.getElem?_set_self hxl]
            by_cases hby : b = y
            · subst hby
              simp [hyl]
            · have : y.toNat ≠ b.toNat := by omega
              simp [hby, List.getElem?_set_ne this, hcol]
          · have : x.toNat ≠ a.toNat := by omega
            simp [hax, List.getElem?_set_ne this]
        · rw [if_neg hab, if_neg hab]
          have : ¬ (a = x ∧ b = y) := by omega
          simp [this]
      · exact absurd hs (by simp)
  · exact absurd hs (by simp)

theorem Grid.set_dim {g g1 : Grid} {w h x y v : Int} (hd : g.Dim w h)
    (hs : g.set x y v = some g1) : g1.Dim w h := by
  unfold Grid.set at hs
  split at hs
  · split at hs
    · exact absurd hs (by simp)
    · rename_i col hcol
      split at hs
      · simp only [Option.some.injEq] at hs
        subst hs
        have hx := List.getElem?_eq_some.mp hcol
        obtain ⟨hxl, hxe⟩ := hx
        refine ⟨by simpa using hd.1, ?_⟩
        intro c hc
        rcases List.mem_or_eq_of_mem_set hc with hc | hc
        · exact hd.2 c hc
        · subst hc
          have := hd.2 col (hxe ▸ List.getElem_mem _)
          simpa using this
      · exact absurd hs (by simp)
  · exact absurd hs (by simp)

theorem Grid.set_same {g : Grid} {x y v : Int} (hg : g.get? x y = some v) :
    g.set x y v = some g := by
  unfold Grid.get? at hg
  unfold Grid.set
  split at hg
  · rename_i hxy
    rw [if_pos hxy]
    split at hg
    · exact absurd hg (by simp)
    · rename_i col hcol
      have hy := List.getElem?_eq_some.mp hg
      obtain ⟨hyl, hye⟩ := hy
      have hx := List.getElem?_eq_some.mp hcol
      obtain ⟨hxl, hxe⟩ := hx
      simp only [hyl, if_true, Option.some.injEq]
      rw [list_set_same col y.toNat v hg, list_set_same g x.toNat col hcol]
  · exact absurd hg (by simp)

theorem sum_map_set {α : Type} (f : α → Nat) (l : List α) (i : Nat) (a b : α)
    (h : l[i]? = some b) : ((l.set i a).map f).sum + f b = (l.map f).sum + f a := by
  induction l generalizing i with
  | nil => simp at h
  | cons c t ih =>
    cases i with
    | zero =>
      simp at h
      subst h
      simp
      omega
    | succ j =>
      simp at h
      have := ih j h
      simp only [List.set_cons_succ, List.map_cons, List.sum_cons]
      omega

theorem count_set_zero (l : List Int) (j : Nat) (b : Int) (h : l[j]? = some b) :
    (l.set j 0).count 1 + (if b = 1 then 1 else 0) = l.count 1 := by
  induction l generalizing j with
  | nil => simp at h
  | cons c t ih =>
    cases j with
    | zero =>
      simp at h
      subst h
      by_cases hc : c = 1
      · simp [hc, List.count_cons]
      · simp [hc, List.count_cons]
    | succ k =>
      simp at h
      have := ih k h
      simp only [List.set_cons_succ, List.count_cons]
      omega

theorem Grid.walls_set {g g1 : Grid} {x y v : Int} (hg : g.get? x y = some v)
    (hs : g.set x y 0 = some g1) : g1.walls + (if v = 1 then 1 else 0) = g.walls := by
  unfold Grid.get? at hg
  unfold Grid.set at hs
  split at hg
  · rename_i hxy
    rw [if_pos hxy] at hs
    split at hg
    · exact absurd hg (by simp)
    · rename_i col hcol
      have hy := List.getElem?_eq_some.mp hg
      obtain ⟨hyl, _⟩ := hy
      rw [hcol] at hs
      simp only [if_pos hyl, Option.some.injEq] at hs
      subst hs
      unfold Grid.walls
      have h1 := sum_map_set (fun c : List Int => c.count 1) g x.toNat (col.set y.toNat 0) col hcol
      have h2 := count_set_zero col y.toNat v hg
      simp only at h1
      omega
  · exact absurd hg (by simp)

/-! ## Graphs of cells -/

theorem cellGraph_congr {O O1 : Int × Int → Prop} (h : ∀ c, O c ↔ O1 c) :
    cellGraph O = cellGraph O1 := by
  have : O = O1 := funext fun c => propext (h c)
  rw [this]

theorem cellGraph_mono {O O1 : Int × Int → Prop} (h : ∀ c, O c → O1 c) :
    cellGraph O ≤ cellGraph O1 := by
  intro a b hab
  exact ⟨h a hab.1, h b hab.2.1, hab.2.2⟩

/-- Adding one cell that touches at most one cell of `O` creates no cycle. -/
theorem cellGraph_leaf {O : Int × Int → Prop} {v : Int × Int}
    (hac : (cellGraph O).IsAcyclic)
    (huniq : ∀ a b, O a → O b → adj4 v a → adj4 v b → a = b) :
    (cellGraph (fun c => O c ∨ c = v)).IsAcyclic := by
  intro u c hc
  by_cases hvc : v ∈ c.support
  · have hc1 := hc.rotate hvc
    generalize c.rotate hvc = c1 at hc1
    cases c1 with
    | nil => exact hc1.not_of_nil
    | cons h p =>
      rename_i a
      rw [SimpleGraph.Walk.cons_isCycle_iff] at hc1
      have hne : v ≠ a := h.ne
      obtain ⟨b, h2, q, hq⟩ := SimpleGraph.Walk.exists_eq_cons_of_ne hne p.reverse
      have hOa : O a := h.2.1.resolve_right (fun e => hne e.symm)
      have hOb : O b := h2.2.1.resolve_right (fun e => h2.ne e.symm)
      have hab : a = b := huniq a b hOa hOb h.2.2 h2.2.2
      subst hab
      apply hc1.2
      have hmem : s(v, a) ∈ p.reverse.edges := by
        rw [hq, SimpleGraph.Walk.edges_cons]
        exact List.mem_cons_self _ _
      rw [SimpleGraph.Walk.edges_reverse] at hmem
      exact List.mem_reverse.mp hmem
  · have hed : ∀ e ∈ c.edges, e ∈ (cellGraph O).edgeSet := by
      intro e he
      induction e using Sym2.ind with
      | _ x y =>
        have hx := c.fst_mem_support_of_mem_edges he
        have hy := c.snd_mem_support_of_mem_edges he
        have hadj := c.adj_of_mem_edges he
        have hxv : x ≠ v := fun e => hvc (e ▸ hx)
        have hyv : y ≠ v := fun e => hvc (e ▸ hy)
        exact ⟨hadj.1.resolve_right hxv, hadj.2.1.resolve_right hyv, hadj.2.2⟩
    exact hac _ (hc.transfer hed)

theorem openPath_of_reachable {g : Grid} {a b : Int × Int} (ha : g.isOpen a)
    (h : (openGraph g).Reachable a b) : g.OpenPath a b := by
  obtain ⟨p⟩ := h
  refine ⟨p.support, ?_, ?_, ?_, ?_⟩
  · cases p <;> simp
  · rw [List.getLast?_eq_getLast _ p.support_ne_nil, SimpleGraph.Walk.getLast_support]
  · intro c hc
    induction p with
    | nil => simp at hc; exact hc ▸ ha
    | cons hadj q ih =>
      simp at hc
      rcases hc with hc | hc
      · exact hc ▸ ha
      · exact ih hadj.2.1 hc
  · exact (p.chain'_adj_support).imp (fun _ _ hab => hab.2.2)

/-! ## Arithmetic of carving steps -/

theorem unitStep_adj {x y e1 e2 : Int} (he : UnitStep e1 e2) :
    adj4 (x, y) (x + e1, y + e2) := by
  unfold UnitStep at he; unfold adj4; simp only; omega

theorem unitStep_adj2 {x y e1 e2 : Int} (he : UnitStep e1 e2) :
    adj4 (x + e1, y + e2) (x + 2 * e1, y + 2 * e2) := by
  unfold UnitStep at he; unfold adj4; simp only; omega

theorem mid_nbr_odd {x y e1 e2 r1 r2 : Int} (he : UnitStep e1 e2)
    (hx : x % 2 = 1) (hy : y % 2 = 1) (hadj : adj4 (x + e1, y + e2) (r1, r2))
    (h1 : r1 % 2 = 1) (h2 : r2 % 2 = 1) :
    (r1 = x ∧ r2 = y) ∨ (r1 = x + 2 * e1 ∧ r2 = y + 2 * e2) := by
  unfold UnitStep at he; unfold adj4 at hadj; simp only at hadj; omega

theorem room_nbr_not_room {x y r1 r2 : Int}
    (hx : x % 2 = 1) (hy : y % 2 = 1) (hadj : adj4 (x, y) (r1, r2))
    (h1 : r1 % 2 = 1) (h2 : r2 % 2 = 1) : False := by
  unfold adj4 at hadj; simp only at hadj; omega

theorem mid_nbr_open {x y e1 e2 a1 a2 : Int} (he : UnitStep e1 e2)
    (hx : x % 2 = 1) (hy : y % 2 = 1) (hadj : adj4 (x + e1, y + e2) (a1, a2))
    (hpar : a1 % 2 = 1 ∨ a2 % 2 = 1) (hn : ¬ (a1 = x + 2 * e1 ∧ a2 = y + 2 * e2)) :
    a1 = x ∧ a2 = y := by
  unfold UnitStep at he; unfold adj4 at hadj; simp only at hadj; omega

theorem mid_interior {w h x y e1 e2 : Int} (he : UnitStep e1 e2)
    (hc : Interior w h (x, y)) (hn : Interior w h (x + 2 * e1, y + 2 * e2))
    (hx : x % 2 = 1) (hy : y % 2 = 1) :
    Interior w h (x + e1, y + e2) ∧ ((x + e1) % 2 = 1 ∨ (y + e2) % 2 = 1) ∧
      ¬ ((x + e1) % 2 = 1 ∧ (y + e2) % 2 = 1) := by
  unfold UnitStep at he; unfold Interior at *; simp only at *; omega

theorem far_parity {x y e1 e2 : Int} 
    (hx : x % 2 = 1) (hy : y % 2 = 1) :
    (x + 2 * e1) % 2 = 1 ∧ (y + 2 * e2) % 2 = 1 := by
  omega

/-! ## The invariant of the carving loop -/

theorem CarveInv.congr {w h : Int} {g : Grid} {P Q : Int × Int → Prop}
    (inv : CarveInv w h g P) (hPQ : ∀ c, P c ↔ Q c) : CarveInv w h g Q := by
  have : P = Q := funext fun c => propext (hPQ c)
  rw [← this]; exact inv

/-- One carve: opening the Wall room two steps from the pending room `(x, y)` and then
the cell between them keeps the invariant and removes a Wall. -/
theorem carve_inv {w h : Int} {g g1 g2 : Grid} {P : Int × Int → Prop} {x y e1 e2 : Int}
    (inv : CarveInv w h g P) (hP : P (x, y)) (he : UnitStep e1 e2)
    (hint : Interior w h (x + 2 * e1, y + 2 * e2))
    (hwall : g.get? (x + 2 * e1) (y + 2 * e2) = some 1)
    (hs1 : g.set (x + 2 * e1) (y + 2 * e2) 0 = some g1)
    (hs2 : g1.set (x + e1) (y + e2) 0 = some g2) :
    CarveInv w h g2 (fun c => P c ∨ c = (x + 2 * e1, y + 2 * e2)) ∧
      (∀ c, g.isOpen c → g2.isOpen c) ∧ g2.walls + 1 ≤ g.walls := by
  obtain ⟨hroom, hopen⟩ := inv.pend_room (x, y) hP
  have hri : Interior w h (x, y) := hroom.1
  have hrx : x % 2 = 1 := hroom.2.1
  have hry : y % 2 = 1 := hroom.2.2
  obtain ⟨hmi, hmp, hmnr⟩ := mid_interior he hri hint hrx hry
  obtain ⟨hnpx, hnpy⟩ := @far_parity x y e1 e2 hrx hry
  have hget : ∀ a b, g2.get? a b =
      if a = x + e1 ∧ b = y + e2 then some 0
      else if a = x + 2 * e1 ∧ b = y + 2 * e2 then some 0 else g.get? a b := by
    intro a b
    rw [Grid.get?_set hs2, Grid.get?_set hs1]
  have hiff : ∀ a b, g2.isOpen (a, b) ↔
      (g.isOpen (a, b) ∨ (a = x + e1 ∧ b = y + e2)) ∨ (a = x + 2 * e1 ∧ b = y + 2 * e2) := by
    intro a b
    unfold Grid.isOpen
    simp only [hget]
    by_cases h1 : a = x + e1 ∧ b = y + e2
    · simp [h1]
    · by_cases h2 : a = x + 2 * e1 ∧ b = y + 2 * e2
      · simp [h2]
      · simp [h1, h2]
  have hmono : ∀ c, g.isOpen c → g2.isOpen c := fun c hc => (hiff c.1 c.2).mpr (Or.inl (Or.inl hc))
  have hnclosed : ¬ g.isOpen (x + 2 * e1, y + 2 * e2) := by
    unfold Grid.isOpen; rw [hwall]; simp
  have hmclosed : ¬ g.isOpen (x + e1, y + e2) := fun hm =>
    hnclosed (inv.link _ hm _ (unitStep_adj2 he) hnpx hnpy)
  have hle : openGraph g ≤ openGraph g2 := cellGraph_mono hmono
  have hmo : g2.isOpen (x + e1, y + e2) := (hiff _ _).mpr (Or.inl (Or.inr ⟨rfl, rfl⟩))
  have hno : g2.isOpen (x + 2 * e1, y + 2 * e2) := (hiff _ _).mpr (Or.inr ⟨rfl, rfl⟩)
  have hxo : g2.isOpen (x, y) := hmono _ hopen
  have hrm : (openGraph g2).Reachable (1, 1) (x + e1, y + e2) :=
    ((inv.conn _ hopen).mono hle).trans (SimpleGraph.Adj.reachable ⟨hxo, hmo, unitStep_adj he⟩)
  have hrn : (openGraph g2).Reachable (1, 1) (x + 2 * e1, y + 2 * e2) :=
    hrm.trans (SimpleGraph.Adj.reachable ⟨hmo, hno, unitStep_adj2 he⟩)
  have hd1 := Grid.set_dim inv.dim hs1
  refine ⟨?_, hmono, ?_⟩
  · refine ⟨Grid.set_dim hd1 hs2, ?_, hmono _ inv.start, ?_, ?_, ?_, ?_, ?_, ?_⟩
    · intro a b v hv
      rw [hget] at hv
      split_ifs at hv with h1 h2
      · left; simpa using hv.symm
      · left; simpa using hv.symm
      · exact inv.binary a b v hv
    · rintro c (hc | hc)
      · exact ⟨(inv.pend_room c hc).1, hmono c (inv.pend_room c hc).2⟩
      · subst hc
        exact ⟨⟨hint, hnpx, hnpy⟩, hno⟩
    · rintro ⟨a, b⟩ hc
      rcases (hiff a b).mp hc with (hc | ⟨e1, e2⟩) | ⟨e1, e2⟩
      · exact inv.open_interior _ hc
      · subst e1 e2; exact ⟨hmi, hmp⟩
      · subst e1 e2; exact ⟨hint, Or.inl hnpx⟩
    · rintro ⟨a, b⟩ hc ⟨r1, r2⟩ hadj hr1 hr2
      rcases (hiff a b).mp hc with (hc | ⟨ea, eb⟩) | ⟨ea, eb⟩
      · exact hmono _ (inv.link _ hc _ hadj hr1 hr2)
      · subst ea eb
        rcases mid_nbr_odd he hrx hry hadj hr1 hr2 with ⟨ea, eb⟩ | ⟨ea, eb⟩
        · subst ea eb; exact hxo
        · subst ea eb; exact hno
      · subst ea eb
        exact (room_nbr_not_room hnpx hnpy hadj hr1 hr2).elim
    · rintro ⟨a, b⟩ hc
      rcases (hiff a b).mp hc with (hc | ⟨ea, eb⟩) | ⟨ea, eb⟩
      · exact (inv.conn _ hc).mono hle
      · subst ea eb; exact hrm
      · subst ea eb; exact hrn
    · have hg2 : openGraph g2 =
          cellGraph (fun c => (g.isOpen c ∨ c = (x + e1, y + e2)) ∨
            c = (x + 2 * e1, y + 2 * e2)) := by
        apply cellGraph_congr
        rintro ⟨a, b⟩
        rw [hiff a b]
        simp only [Prod.mk.injEq]
      rw [hg2]
      apply cellGraph_leaf
      · apply cellGraph_leaf inv.acyclic
        have key : ∀ c1 c2 : Int, g.isOpen (c1, c2) → adj4 (x + e1, y + e2) (c1, c2) →
            c1 = x ∧ c2 = y := by
          intro c1 c2 hc hadj
          refine mid_nbr_open he hrx hry hadj (inv.open_interior _ hc).2 ?_
          rintro ⟨ea, eb⟩
          subst ea eb
          exact hnclosed hc
        rintro ⟨a1, a2⟩ ⟨b1, b2⟩ ha hb haa hab
        obtain ⟨h1, h2⟩ := key a1 a2 ha haa
        obtain ⟨h3, h4⟩ := key b1 b2 hb hab
        rw [h1, h2, h3, h4]
      · have key : ∀ c1 c2 : Int, (g.isOpen (c1, c2) ∨ (c1, c2) = (x + e1, y + e2)) →
            adj4 (x + 2 * e1, y + 2 * e2) (c1, c2) → (c1, c2) = (x + e1, y + e2) := by
          intro c1 c2 hc hadj
          rcases hc with hc | hc
          · exact (hnclosed (inv.link _ hc _ (adj4_symm hadj) hnpx hnpy)).elim
          · exact hc
        rintro ⟨a1, a2⟩ ⟨b1, b2⟩ ha hb haa hab
        rw [key a1 a2 ha haa, key b1 b2 hb hab]
    · rintro ⟨a, b⟩ hroomc hc hnp d hd hint2
      have hnp1 : ¬ P (a, b) := fun hp => hnp (Or.inl hp)
      rcases (hiff a b).mp hc with (hc | ⟨ea, eb⟩) | ⟨ea, eb⟩
      · exact hmono _ (inv.done _ hroomc hc hnp1 d hd hint2)
      · subst ea eb
        exact (hmnr hroomc.2).elim
      · subst ea eb
        exact (hnp (Or.inr rfl)).elim
  · have h1 := Grid.walls_set hwall hs1
    have hm : ∃ v, g1.get? (x + e1) (y + e2) = some v := by
      unfold Interior at hmi
      simp only at hmi
      exact Grid.get?_of_range hd1 (by omega) (by omega) (by omega) (by omega)
    obtain ⟨v, hv⟩ := hm
    have h2 := Grid.walls_set hv hs2
    simp only [if_true] at h1
    omega

/-! ## The loops of the generator -/

theorem dir_unit {d : Int × Int} (hd : d ∈ directions) :
    ∃ e1 e2, UnitStep e1 e2 ∧ d = (2 * e1, 2 * e2) ∧ Int.tdiv d.1 2 = e1 ∧
      Int.tdiv d.2 2 = e2 := by
  simp only [directions, List.mem_cons, List.mem_singleton, List.not_mem_nil, or_false] at hd
  rcases hd with rfl | rfl | rfl | rfl
  · exact ⟨0, -1, Or.inl ⟨rfl, Or.inr rfl⟩, rfl, rfl, rfl⟩
  · exact ⟨1, 0, Or.inr ⟨rfl, Or.inl rfl⟩, rfl, rfl, rfl⟩
  · exact ⟨0, 1, Or.inl ⟨rfl, Or.inl rfl⟩, rfl, rfl, rfl⟩
  · exact ⟨-1, 0, Or.inr ⟨rfl, Or.inr rfl⟩, rfl, rfl, rfl⟩

theorem get?_of_interior {w h : Int} {g : Grid} {c : Int × Int} (hd : g.Dim w h)
    (hc : Interior w h c) : ∃ v, g.get? c.1 c.2 = some v := by
  unfold Interior at hc
  exact Grid.get?_of_range hd (by omega) (by omega) (by omega) (by omega)

/-- The `for` loop over the shuffled directions keeps the invariant, opens every
interior target and does not increase `2 * walls + stack size`. -/
theorem carveDirs_spec {w h x y : Int} (ds : List (Int × Int)) :
    ∀ (g : Grid) (st : List (Int × Int)), (∀ d ∈ ds, d ∈ directions) →
      CarveInv w h g (fun c => c = (x, y) ∨ c ∈ st) →
      ∃ g1 st1, carveDirs w h x y ds g st = some (g1, st1) ∧
        CarveInv w h g1 (fun c => c = (x, y) ∨ c ∈ st1) ∧
        (∀ c, g.isOpen c → g1.isOpen c) ∧
        (∀ d ∈ ds, Interior w h (x + d.1, y + d.2) → g1.isOpen (x + d.1, y + d.2)) ∧
        2 * g1.walls + st1.length ≤ 2 * g.walls + st.length := by
  induction ds with
  | nil =>
    intro g st _ inv
    exact ⟨g, st, rfl, inv, fun _ hc => hc, fun d hd => absurd hd (List.not_mem_nil d), le_refl _⟩
  | cons d ds ih =>
    intro g st hds inv
    have hdd : d ∈ directions := hds d (List.mem_cons_self _ _)
    have hds1 : ∀ d1 ∈ ds, d1 ∈ directions := fun d1 h1 => hds d1 (List.mem_cons_of_mem _ h1)
    obtain ⟨e1, e2, he, hde, ht1, ht2⟩ := dir_unit hdd
    rw [carveDirs]
    simp only [ht1, ht2]
    subst hde
    simp only
    by_cases hint : x + 2 * e1 > 0 ∧ x + 2 * e1 < w - 1 ∧ y + 2 * e2 > 0 ∧ y + 2 * e2 < h - 1
    · rw [if_pos hint]
      have hint1 : Interior w h (x + 2 * e1, y + 2 * e2) := hint
      obtain ⟨v, hv⟩ := get?_of_interior inv.dim hint1
      simp only at hv
      rw [hv]
      simp only
      by_cases hv1 : v = 1
      · rw [if_pos hv1]
        subst hv1
        obtain ⟨g1, hs1⟩ := Grid.set_of_get? 0 hv
        rw [hs1]
        simp only
        have hd1 := Grid.set_dim inv.dim hs1
        have hP : (fun c => c = (x, y) ∨ c ∈ st) (x, y) := Or.inl rfl
        obtain ⟨hroom, -⟩ := inv.pend_room (x, y) hP
        obtain ⟨hmi, -, -⟩ := mid_interior he hroom.1 hint1 hroom.2.1 hroom.2.2
        obtain ⟨u, hu⟩ := get?_of_interior hd1 hmi
        obtain ⟨g2, hs2⟩ := Grid.set_of_get? 0 hu
        simp only at hs2
        rw [hs2]
        simp only
        obtain ⟨inv2, hmono2, hw2⟩ := carve_inv inv hP he hint1 hv hs1 hs2
        have inv3 : CarveInv w h g2
            (fun c => c = (x, y) ∨ c ∈ ((x + 2 * e1, y + 2 * e2) :: st)) := by
          refine inv2.congr ?_
          intro c
          simp only [List.mem_cons]
          tauto
        obtain ⟨g3, st3, hrun, inv4, hmono3, hpost, hmeas⟩ := ih g2 _ hds1 inv3
        refine ⟨g3, st3, hrun, inv4, fun c hc => hmono3 c (hmono2 c hc), ?_, ?_⟩
        · intro d1 hd1m hi1
          rcases List.mem_cons.mp hd1m with rfl | hd1m
          · apply hmono3
            exact (inv3.pend_room _ (Or.inr (List.mem_cons_self _ _))).2
          · exact hpost d1 hd1m hi1
        · simp only [List.length_cons] at hmeas
          omega
      · rw [if_neg hv1]
        obtain ⟨g3, st3, hrun, inv4, hmono3, hpost, hmeas⟩ := ih g st hds1 inv
        refine ⟨g3, st3, hrun, inv4, hmono3, ?_, hmeas⟩
        intro d1 hd1m hi1
        rcases List.mem_cons.mp hd1m with rfl | hd1m
        · apply hmono3
          have := inv.binary _ _ _ hv
          unfold Grid.isOpen
          simp only
          rw [hv]
          rcases this with h0 | h1
          · rw [h0]
          · exact absurd h1 hv1
        · exact hpost d1 hd1m hi1
    · rw [if_neg hint]
      obtain ⟨g3, st3, hrun, inv4, hmono3, hpost, hmeas⟩ := ih g st hds1 inv
      refine ⟨g3, st3, hrun, inv4, hmono3, ?_, hmeas⟩
      intro d1 hd1m hi1
      rcases List.mem_cons.mp hd1m with rfl | hd1m
      · exact absurd hi1 hint
      · exact hpost d1 hd1m hi1

/-- One iteration of the `while` loop: pop, shuffle, carve. -/
theorem carveStep_spec {w h x y : Int} {g : Grid} {st : List (Int × Int)} (sh : Shuffle)
    (inv : CarveInv w h g (fun c => c ∈ (x, y) :: st)) :
    ∃ g1 st1, carveDirs w h x y sh.val g st = some (g1, st1) ∧
      CarveInv w h g1 (fun c => c ∈ st1) ∧ (∀ c, g.isOpen c → g1.isOpen c) ∧
      2 * g1.walls + st1.length + 1 ≤ 2 * g.walls + ((x, y) :: st).length := by
  have hsub : ∀ d ∈ sh.val, d ∈ directions := fun d hd => (sh.property.mem_iff).mp hd
  have inv0 : CarveInv w h g (fun c => c = (x, y) ∨ c ∈ st) :=
    inv.congr (fun c => List.mem_cons)
  obtain ⟨g1, st1, hrun, inv1, hmono, hpost, hmeas⟩ := carveDirs_spec sh.val g st hsub inv0
  refine ⟨g1, st1, hrun, ?_, hmono, ?_⟩
  · refine ⟨inv1.dim, inv1.binary, inv1.start, fun c hc => inv1.pend_room c (Or.inr hc),
      inv1.open_interior, inv1.link, inv1.conn, inv1.acyclic, ?_⟩
    intro c hroom hc hnp d hd hint
    by_cases hcx : c = (x, y)
    · subst hcx
      exact hpost d ((sh.property.mem_iff).mpr hd) hint
    · exact inv1.done c hroom hc (fun hp => hp.elim hcx hnp) d hd hint
  · simp only [List.length_cons]
    omega

/-- Any number of iterations keeps the invariant, and `2 * walls + stack size`
iterations empty the stack. -/
theorem carveIter_spec {w h : Int} (rs : Nat → Shuffle) (n : Nat) :
    ∀ s : CarveState, CarveInv w h s.grid (fun c => c ∈ s.stack) →
      ∃ s1, carveIter w h rs n s = some s1 ∧
        CarveInv w h s1.grid (fun c => c ∈ s1.stack) ∧
        (∀ c, s.grid.isOpen c → s1.grid.isOpen c) ∧
        (2 * s.grid.walls + s.stack.length ≤ n → s1.stack = []) := by
  induction n with
  | zero =>
    intro s inv
    refine ⟨s, rfl, inv, fun _ hc => hc, ?_⟩
    intro hle
    exact List.length_eq_zero.mp (by omega)
  | succ n ih =>
    rintro ⟨g, stack, k⟩ inv
    cases stack with
    | nil => exact ⟨_, rfl, inv, fun _ hc => hc, fun _ => rfl⟩
    | cons c st =>
      obtain ⟨x, y⟩ := c
      obtain ⟨g1, st1, hrun, inv1, hmono, hmeas⟩ := carveStep_spec (rs k) inv
      obtain ⟨s2, hrun2, inv2, hmono2, hend⟩ := ih ⟨g1, st1, k + 1⟩ inv1
      refine ⟨s2, ?_, inv2, fun c hc => hmono2 c (hmono c hc), ?_⟩
      · simp only [carveIter, hrun]
        exact hrun2
      · intro hle
        apply hend
        simp only at hmeas hle ⊢
        omega

/-! ## The initial grid -/

theorem wallGrid_dim {w h : Int} (hw : 0 ≤ w) (hh : 0 ≤ h) : (wallGrid w h).Dim w h := by
  refine ⟨?_, ?_⟩
  · simp only [wallGrid, List.length_replicate]
    exact Int.toNat_of_nonneg hw
  · intro col hcol
    have := List.eq_of_mem_replicate hcol
    subst this
    simp only [List.length_replicate]
    exact Int.toNat_of_nonneg hh

theorem wallGrid_get? {w h a b v : Int} (hg : (wallGrid w h).get? a b = some v) : v = 1 := by
  unfold Grid.get? at hg
  split at hg
  · split at hg
    · exact absurd hg (by simp)
    · rename_i col hcol
      obtain ⟨_, hc⟩ := List.getElem?_eq_some.mp hcol
      simp only [wallGrid, List.getElem_replicate] at hc
      subst hc
      obtain ⟨_, hv⟩ := List.getElem?_eq_some.mp hg
      simp only [List.getElem_replicate] at hv
      exact hv.symm
  · exact absurd hg (by simp)

theorem wallGrid_walls (w h : Int) : (wallGrid w h).walls = w.toNat * h.toNat := by
  simp [Grid.walls, wallGrid, List.map_replicate, List.sum_replicate, List.count_replicate_self]

/-- After `maze[startX][startY] = 0` on the all-Wall grid the loop invariant holds with
the start room on the stack. -/
theorem init_inv {w h : Int} {g0 : Grid} (hw : 3 ≤ w) (hh : 3 ≤ h)
    (hs : (wallGrid w h).set 1 1 0 = some g0) :
    CarveInv w h g0 (fun c => c ∈ [((1 : Int), (1 : Int))]) ∧
      2 * g0.walls + 1 ≤ fuelBound w h := by
  have hd := wallGrid_dim (show 0 ≤ w by omega) (show 0 ≤ h by omega)
  have hget : ∀ a b, g0.get? a b =
      if a = 1 ∧ b = 1 then some 0 else (wallGrid w h).get? a b := Grid.get?_set hs
  have hiff : ∀ a b, g0.isOpen (a, b) ↔ a = 1 ∧ b = 1 := by
    intro a b
    unfold Grid.isOpen
    simp only [hget]
    by_cases h1 : a = 1 ∧ b = 1
    · simp [h1]
    · simp only [h1, if_false, iff_false]
      intro hc
      exact absurd (wallGrid_get? hc) (by decide)
  have hstart : g0.isOpen (1, 1) := (hiff 1 1).mpr ⟨rfl, rfl⟩
  have hroom : Room w h (1, 1) := by
    unfold Room Interior
    simp only
    omega
  have hnoadj : ∀ a b, ¬ (openGraph g0).Adj a b := by
    rintro ⟨a1, a2⟩ ⟨b1, b2⟩ ⟨ha, hb, hab⟩
    obtain ⟨h1, h2⟩ := (hiff _ _).mp ha
    obtain ⟨h3, h4⟩ := (hiff _ _).mp hb
    subst h1 h2 h3 h4
    exact adj4_irrefl _ hab
  refine ⟨⟨Grid.set_dim hd hs, ?_, hstart, ?_, ?_, ?_, ?_, ?_, ?_⟩, ?_⟩
  · intro a b v hv
    rw [hget] at hv
    split_ifs at hv
    · left; simpa using hv.symm
    · right; exact wallGrid_get? hv
  · intro c hc
    simp only [List.mem_singleton] at hc
    subst hc
    exact ⟨hroom, hstart⟩
  · rintro ⟨a, b⟩ hc
    obtain ⟨h1, h2⟩ := (hiff _ _).mp hc
    subst h1 h2
    exact ⟨hroom.1, Or.inl rfl⟩
  · rintro ⟨a, b⟩ hc ⟨r1, r2⟩ hadj hr1 hr2
    obtain ⟨h1, h2⟩ := (hiff _ _).mp hc
    subst h1 h2
    exact (room_nbr_not_room (by decide) (by decide) hadj hr1 hr2).elim
  · rintro ⟨a, b⟩ hc
    obtain ⟨h1, h2⟩ := (hiff _ _).mp hc
    subst h1 h2
    exact SimpleGraph.Reachable.refl _
  · have hbot : openGraph g0 = ⊥ := by
      ext a b
      simp only [SimpleGraph.bot_adj, iff_false]
      exact hnoadj a b
    rw [hbot]
    exact SimpleGraph.isAcyclic_bot
  · rintro ⟨a, b⟩ _ hc hnp
    obtain ⟨h1, h2⟩ := (hiff _ _).mp hc
    subst h1 h2
    exact absurd (List.mem_singleton.mpr rfl) hnp
  · obtain ⟨v, hv⟩ := Grid.get?_of_range hd (show (0 : Int) ≤ 1 by omega) (show (1 : Int) < w by omega)
      (show (0 : Int) ≤ 1 by omega) (show (1 : Int) < h by omega)
    have h1 := Grid.walls_set hv hs
    have h2 := wallGrid_walls w h
    unfold fuelBound
    rw [wallGrid_get? hv] at h1
    simp only [if_true] at h1
    omega

/-! ## Every room is carved -/

/-- When the stack is empty every room is Open. -/
theorem rooms_open {w h : Int} {g : Grid} (inv : CarveInv w h g (fun _ => False)) :
    ∀ c, Room w h c → g.isOpen c := by
  have hcol : ∀ j : Nat, Interior w h (1, 2 * (j : Int) + 1) → g.isOpen (1, 2 * (j : Int) + 1) := by
    intro j
    induction j with
    | zero => intro _; exact inv.start
    | succ j ih =>
      intro hint
      have hprev : Interior w h (1, 2 * (j : Int) + 1) := by
        unfold Interior at *
        simp only at *
        push_cast at hint
        omega
      have hroom : Room w h (1, 2 * (j : Int) + 1) := ⟨hprev, rfl, by simp only; omega⟩
      have e : (((1 : Int), 2 * (j : Int) + 1).1 + ((0 : Int), (2 : Int)).1,
          ((1 : Int), 2 * (j : Int) + 1).2 + ((0 : Int), (2 : Int)).2) =
          (1, 2 * ((j + 1 : Nat) : Int) + 1) := by
        refine Prod.ext ?_ ?_
        · simp
        · simp only; push_cast; ring
      have := inv.done _ hroom (ih hprev) (fun hf => hf) (0, 2) (by simp [directions])
      rw [e] at this
      exact this hint
  have hall : ∀ i j : Nat, Interior w h (2 * (i : Int) + 1, 2 * (j : Int) + 1) →
      g.isOpen (2 * (i : Int) + 1, 2 * (j : Int) + 1) := by
    intro i
    induction i with
    | zero =>
      intro j hint
      simpa using hcol j (by simpa using hint)
    | succ i ih =>
      intro j hint
      have hprev : Interior w h (2 * (i : Int) + 1, 2 * (j : Int) + 1) := by
        unfold Interior at *
        simp only at *
        push_cast at hint
        omega
      have hroom : Room w h (2 * (i : Int) + 1, 2 * (j : Int) + 1) :=
        ⟨hprev, by simp only; omega, by simp only; omega⟩
      have e : ((2 * (i : Int) + 1, 2 * (j : Int) + 1).1 + ((2 : Int), (0 : Int)).1,
          (2 * (i : Int) + 1, 2 * (j : Int) + 1).2 + ((2 : Int), (0 : Int)).2) =
          (2 * ((i + 1 : Nat) : Int) + 1, 2 * (j : Int) + 1) := by
        refine Prod.ext ?_ ?_
        · simp only; push_cast; ring
        · simp
      have := inv.done _ hroom (ih j hprev) (fun hf => hf) (2, 0) (by simp [directions])
      rw [e] at this
      exact this hint
  rintro ⟨a, b⟩ hroom
  obtain ⟨hint, ha, hb⟩ := hroom
  simp only at ha hb
  have hia := hint
  unfold Interior at hia
  simp only at hia
  have ea : a = 2 * ((a / 2).toNat : Int) + 1 := by omega
  have eb : b = 2 * ((b / 2).toNat : Int) + 1 := by omega
  have := hall (a / 2).toNat (b / 2).toNat (by rw [← ea, ← eb]; exact hint)
  rw [← ea, ← eb] at this
  exact this

/-! ## Entrance, exit and the scan -/

theorem entrance_nbr {w h a1 a2 : Int} (hi : Interior w h (a1, a2))
    (hadj : adj4 (1, 0) (a1, a2)) : (a1, a2) = (1, 1) := by
  unfold Interior at hi; unfold adj4 at hadj; simp only at hi hadj
  simp only [Prod.mk.injEq]; omega

theorem exit_nbr {w h a1 a2 : Int} (hh : 3 ≤ h)
    (hi : Interior w h (a1, a2) ∨ (a1, a2) = (1, 0))
    (hadj : adj4 (w - 2, h - 1) (a1, a2)) : (a1, a2) = (w - 2, h - 2) := by
  unfold Interior at hi; unfold adj4 at hadj; simp only [Prod.mk.injEq] at hi hadj
  simp only [Prod.mk.injEq]; omega

theorem adj_start_entrance : adj4 (1, 1) (1, 0) := by
  unfold adj4; simp

theorem adj_win_exit (w h : Int) : adj4 (w - 2, h - 2) (w - 2, h - 1) := by
  unfold adj4
  refine Or.inl ⟨rfl, Or.inr ?_⟩
  show h - 1 = h - 2 + 1
  omega

theorem win_room {w h : Int} (hw : 3 ≤ w) (hh : 3 ≤ h) (hwo : w % 2 = 1) (hho : h % 2 = 1) :
    Room w h (w - 2, h - 2) := by
  unfold Room Interior; simp only; omega

theorem corner_room {w h : Int} (hw : 3 ≤ w) (hh : 3 ≤ h) (hho : h % 2 = 1) :
    Room w h (1, h - 2) := by
  unfold Room Interior; simp only; omega

/-- Opening the entrance and the exit after the carving loop. -/
theorem ends_spec {w h : Int} {g1 g2 g3 : Grid} (hw : 3 ≤ w) (hh : 3 ≤ h)
    (hwo : w % 2 = 1) (hho : h % 2 = 1) (inv : CarveInv w h g1 (fun _ => False))
    (hs1 : g1.set 1 0 0 = some g2) (hs2 : g2.set (w - 2) (h - 1) 0 = some g3) :
    MazeSpec w h g3 := by
  have hrooms := rooms_open inv
  have hget : ∀ a b, g3.get? a b =
      if a = w - 2 ∧ b = h - 1 then some 0
      else if a = 1 ∧ b = 0 then some 0 else g1.get? a b := by
    intro a b
    rw [Grid.get?_set hs2, Grid.get?_set hs1]
  have hiff : ∀ a b, g3.isOpen (a, b) ↔
      (g1.isOpen (a, b) ∨ (a = 1 ∧ b = 0)) ∨ (a = w - 2 ∧ b = h - 1) := by
    intro a b
    unfold Grid.isOpen
    simp only [hget]
    by_cases h1 : a = w - 2 ∧ b = h - 1
    · simp [h1]
    · by_cases h2 : a = 1 ∧ b = 0
      · simp [h2]
      · simp [h1, h2]
  have hmono : ∀ c, g1.isOpen c → g3.isOpen c := fun c hc => (hiff c.1 c.2).mpr (Or.inl (Or.inl hc))
  have hle : openGraph g1 ≤ openGraph g3 := cellGraph_mono hmono
  have hen : g3.isOpen (1, 0) := (hiff _ _).mpr (Or.inl (Or.inr ⟨rfl, rfl⟩))
  have hex : g3.isOpen (w - 2, h - 1) := (hiff _ _).mpr (Or.inr ⟨rfl, rfl⟩)
  have hwin : g1.isOpen (w - 2, h - 2) := hrooms _ (win_room hw hh hwo hho)
  have hren : (openGraph g3).Reachable (1, 1) (1, 0) :=
    SimpleGraph.Adj.reachable ⟨hmono _ inv.start, hen, adj_start_entrance⟩
  have hrex : (openGraph g3).Reachable (1, 1) (w - 2, h - 1) :=
    ((inv.conn _ hwin).mono hle).trans
      (SimpleGraph.Adj.reachable ⟨hmono _ hwin, hex, adj_win_exit w h⟩)
  refine ⟨Grid.set_dim (Grid.set_dim inv.dim hs1) hs2, ?_, fun c hc => hmono c (hrooms c hc),
    ?_, hen, hex, ?_, ?_⟩
  · intro a b v hv
    rw [hget] at hv
    split_ifs at hv
    · left; simpa using hv.symm
    · left; simpa using hv.symm
    · exact inv.binary a b v hv
  · rintro ⟨a, b⟩ hc
    rcases (hiff a b).mp hc with (hc | ⟨ea, eb⟩) | ⟨ea, eb⟩
    · exact Or.inl (inv.open_interior _ hc)
    · subst ea eb; exact Or.inr (Or.inl rfl)
    · subst ea eb; exact Or.inr (Or.inr rfl)
  · rintro ⟨a, b⟩ hc
    rcases (hiff a b).mp hc with (hc | ⟨ea, eb⟩) | ⟨ea, eb⟩
    · exact (inv.conn _ hc).mono hle
    · subst ea eb; exact hren
    · subst ea eb; exact hrex
  · have hg3 : openGraph g3 =
        cellGraph (fun c => (g1.isOpen c ∨ c = (1, 0)) ∨ c = (w - 2, h - 1)) := by
      apply cellGraph_congr
      rintro ⟨a, b⟩
      rw [hiff a b]
      simp only [Prod.mk.injEq]
    rw [hg3]
    apply cellGraph_leaf
    · apply cellGraph_leaf inv.acyclic
      rintro ⟨a1, a2⟩ ⟨b1, b2⟩ ha hb haa hab
      rw [entrance_nbr (inv.open_interior _ ha).1 haa, entrance_nbr (inv.open_interior _ hb).1 hab]
    · have key : ∀ c1 c2 : Int, (g1.isOpen (c1, c2) ∨ (c1, c2) = (1, 0)) →
          adj4 (w - 2, h - 1) (c1, c2) → (c1, c2) = (w - 2, h - 2) := by
        intro c1 c2 hc hadj
        refine exit_nbr hh ?_ hadj
        rcases hc with hc | hc
        · exact Or.inl (inv.open_interior _ hc).1
        · exact Or.inr hc
      rintro ⟨a1, a2⟩ ⟨b1, b2⟩ ha hb haa hab
      rw [key a1 a2 ha haa, key b1 b2 hb hab]

/-- The scan of a column whose cell in row `height - 2` is Open stops at once. -/
theorem scanColumn_top {h x : Int} {g : Grid} (hh : 3 ≤ h) (ho : g.isOpen (x, h - 2)) :
    scanColumn g x (h - 1).toNat = some true := by
  obtain ⟨k, hk⟩ : ∃ k, (h - 1).toNat = k + 1 := ⟨(h - 2).toNat, by omega⟩
  have hkk : (k : Int) = h - 2 := by omega
  have hg : g.get? x (k : Int) = some 0 := by rw [hkk]; exact ho
  rw [hk]
  simp only [scanColumn, hg, if_true]

/-- The scan stops in column 1 at row `height - 2` and rewrites that cell with the
value it already has. -/
theorem scan_spec {w h : Int} {g : Grid} (hw : 3 ≤ w) (hh : 3 ≤ h)
    (ho : g.isOpen (1, h - 2)) : scanFrom h g 1 (w - 2).toNat = some (g, true) := by
  obtain ⟨n, hn⟩ : ∃ n, (w - 2).toNat = n + 1 := ⟨(w - 3).toNat, by omega⟩
  rw [hn]
  simp only [scanFrom, scanColumn_top hh ho]
  have hg2 : g.get? 1 (h - 2) = some 0 := ho
  rw [Grid.set_same hg2]

/-- On the all-Wall grid of sizes at least 3 the carving loop ends within
`fuelBound w h` iterations, with an empty stack and the invariant. -/
theorem loop_spec (rs : Nat → Shuffle) {fuel : Nat} {w h : Int}
    (hw : 3 ≤ w) (hh : 3 ≤ h) (hf : fuelBound w h ≤ fuel) :
    ∃ g0 g1, (wallGrid w h).set 1 1 0 = some g0 ∧
      carveLoop w h rs fuel ⟨g0, [(1, 1)], 0⟩ = some g1 ∧
      CarveInv w h g1 (fun _ => False) := by
  have hd := wallGrid_dim (show 0 ≤ w by omega) (show 0 ≤ h by omega)
  obtain ⟨v0, hv0⟩ := Grid.get?_of_range hd (show (0 : Int) ≤ 1 by omega)
    (show (1 : Int) < w by omega) (show (0 : Int) ≤ 1 by omega) (show (1 : Int) < h by omega)
  obtain ⟨g0, hs0⟩ := Grid.set_of_get? 0 hv0
  obtain ⟨inv0, hm0⟩ := init_inv hw hh hs0
  obtain ⟨s1, hrun, inv1, -, hend⟩ :=
    carveIter_spec rs fuel ⟨g0, [(1, 1)], 0⟩ inv0
  have hempty : s1.stack = [] := hend (by simp only [List.length_singleton]; omega)
  refine ⟨g0, s1.grid, hs0, ?_, ?_⟩
  · simp only [carveLoop, hrun, hempty, List.isEmpty_nil, if_true]
  · refine inv1.congr ?_
    intro c
    rw [hempty]
    simp

/-- One pass of the generator on the all-Wall grid of odd sizes at least 3: the
carving loop ends, the result meets `MazeSpec`, and the scan leaves it unchanged and
sets `pathExists`. -/
theorem pass_spec (rs : Nat → Shuffle) {fuel : Nat} {w h : Int} (size : Int)
    (hw : 3 ≤ w) (hh : 3 ≤ h) (hwo : w % 2 = 1) (hho : h % 2 = 1)
    (hf : fuelBound w h ≤ fuel) :
    ∃ g, carvePass rs fuel ⟨wallGrid w h, w, h, size⟩ = some g ∧
      scanFrom h g 1 (w - 2).toNat = some (g, true) ∧
      generatePass rs fuel ⟨wallGrid w h, w, h, size⟩ = some (g, true) ∧ MazeSpec w h g := by
  obtain ⟨g0, g1, hs0, hloop, inv2⟩ := loop_spec rs hw hh hf
  obtain ⟨v1, hv1⟩ := Grid.get?_of_range inv2.dim (show (0 : Int) ≤ 1 by omega)
    (show (1 : Int) < w by omega) (show (0 : Int) ≤ 0 by omega) (show (0 : Int) < h by omega)
  obtain ⟨g2, hs1⟩ := Grid.set_of_get? 0 hv1
  obtain ⟨v2, hv2⟩ := Grid.get?_of_range (Grid.set_dim inv2.dim hs1) (show 0 ≤ w - 2 by omega)
    (show w - 2 < w by omega) (show 0 ≤ h - 1 by omega) (show h - 1 < h by omega)
  obtain ⟨g3, hs2⟩ := Grid.set_of_get? 0 hv2
  have hspec := ends_spec hw hh hwo hho inv2 hs1 hs2
  have hcp : carvePass rs fuel ⟨wallGrid w h, w, h, size⟩ = some g3 := by
    simp only [carvePass, hs0, hloop, hs1, hs2]
  have hscan := scan_spec (g := g3) hw hh (hspec.rooms _ (corner_room hw hh hho))
  refine ⟨g3, hcp, hscan, ?_, hspec⟩
  simp only [generatePass, hcp, hscan]

/-- On the all-Wall grid of odd sizes at least 3 `generateMaze` returns after one pass,
whatever the seed, the clock and the allowed depth of regeneration. -/
theorem generate_spec (srand : Int → Nat → Shuffle) (fuel regen : Nat)
    (clock : Nat → Int) {w h : Int} (size seed : Int)
    (hw : 3 ≤ w) (hh : 3 ≤ h) (hwo : w % 2 = 1) (hho : h % 2 = 1)
    (hf : fuelBound w h ≤ fuel) :
    ∃ g, carvePass (seedShuffles srand (clock 0) seed) fuel ⟨wallGrid w h, w, h, size⟩ = some g ∧
      scanFrom h g 1 (w - 2).toNat = some (g, true) ∧
      generatePass (seedShuffles srand (clock 0) seed) fuel ⟨wallGrid w h, w, h, size⟩ =
        some (g, true) ∧
      generateMaze srand fuel regen clock ⟨wallGrid w h, w, h, size⟩ seed =
        some ⟨g, w, h, size⟩ ∧ MazeSpec w h g := by
  obtain ⟨g, hcp, hscan, hgp, hspec⟩ :=
    pass_spec (seedShuffles srand (clock 0) seed) size hw hh hwo hho hf
  refine ⟨g, hcp, hscan, hgp, ?_, hspec⟩
  unfold generateMaze
  rw [hgp]
  rfl

theorem oddUp_spec {w : Int} (hw : 3 ≤ w) :
    3 ≤ oddUp w ∧ oddUp w % 2 = 1 ∧ w ≤ oddUp w ∧ oddUp w ≤ w + 1 ∧
      (w % 2 = 1 → oddUp w = w) ∧ (w % 2 = 0 → oddUp w = w + 1) := by
  unfold oddUp
  have h1 : Int.tmod w 2 = w % 2 := Int.tmod_eq_emod (by omega) (by omega)
  rw [h1]
  split_ifs <;> omega

theorem new_eq (srand : Int → Nat → Shuffle) (fuel regen : Nat) (clock : Nat → Int)
    {w h : Int} (size : Int) (hw : 3 ≤ w) (hh : 3 ≤ h) :
    Maze.new srand fuel regen clock w h size =
      generateMaze srand fuel regen clock
        ⟨wallGrid (oddUp w) (oddUp h), oddUp w, oddUp h, size⟩ 0 := by
  have h1 := (oddUp_spec hw).1
  have h2 := (oddUp_spec hh).1
  unfold Maze.new initializeMaze
  simp only
  rw [if_pos ⟨by unfold oddUp at h1; omega, by unfold oddUp at h2; omega⟩]
  rfl

/-- The constructor on a request of at least 3 by 3. -/
theorem new_spec (srand : Int → Nat → Shuffle) (fuel regen : Nat)
    (clock : Nat → Int) {w h : Int} (size : Int) (hw : 3 ≤ w) (hh : 3 ≤ h)
    (hf : fuelBound (oddUp w) (oddUp h) ≤ fuel) :
    ∃ g, Maze.new srand fuel regen clock w h size = some ⟨g, oddUp w, oddUp h, size⟩ ∧
      MazeSpec (oddUp w) (oddUp h) g := by
  obtain ⟨hw3, hwo, -⟩ := oddUp_spec hw
  obtain ⟨hh3, hho, -⟩ := oddUp_spec hh
  obtain ⟨g, -, -, -, hgen, hspec⟩ := generate_spec srand fuel regen clock size 0 hw3 hh3 hwo hho hf
  exact ⟨g, by rw [new_eq srand fuel regen clock size hw hh, hgen], hspec⟩

/-! ## Reading the grid through `isPath` -/

theorem isPath_of_isOpen {m : Maze} {c : Int × Int} (hd : m.maze.Dim m.width m.height)
    (ho : m.maze.isOpen c) : m.isPath c.1 c.2 = some true := by
  have hr := Grid.get?_range hd ho
  unfold Maze.isPath
  rw [if_neg (by omega)]
  have : m.maze.get? c.1 c.2 = some 0 := ho
  rw [this]
  rfl

theorem isPath_in_range {m : Maze} {x y : Int} (hd : m.maze.Dim m.width m.height)
    (hx0 : 0 ≤ x) (hxw : x < m.width) (hy0 : 0 ≤ y) (hyh : y < m.height) :
    ∃ v, m.maze.get? x y = some v ∧ m.isPath x y = some (decide (v = 0)) := by
  obtain ⟨v, hv⟩ := Grid.get?_of_range hd hx0 hxw hy0 hyh
  refine ⟨v, hv, ?_⟩
  unfold Maze.isPath
  rw [if_neg (by omega), hv]

theorem isPath_out_of_range (m : Maze) {x y : Int}
    (h : x < 0 ∨ x ≥ m.width ∨ y < 0 ∨ y ≥ m.height) : m.isPath x y = some false := by
  unfold Maze.isPath
  rw [if_pos h]

theorem isPath_some {m : Maze} (hd : m.maze.Dim m.width m.height) (x y : Int) :
    ∃ b, m.isPath x y = some b := by
  by_cases h : x < 0 ∨ x ≥ m.width ∨ y < 0 ∨ y ≥ m.height
  · exact ⟨false, isPath_out_of_range m h⟩
  · obtain ⟨v, -, hv⟩ := isPath_in_range hd (x := x) (y := y) (by omega) (by omega)
      (by omega) (by omega)
    exact ⟨_, hv⟩

theorem isPath_true_range {m : Maze} {x y : Int} (h : m.isPath x y = some true) :
    0 ≤ x ∧ x < m.width ∧ 0 ≤ y ∧ y < m.height := by
  unfold Maze.isPath at h
  split_ifs at h with h1
  · exact absurd h (by simp)
  · omega

theorem fuelBound_mono {w h w1 h1 : Int} (hw : w ≤ w1) (hh : h ≤ h1) :
    fuelBound w h ≤ fuelBound w1 h1 := by
  unfold fuelBound
  have ha : w.toNat ≤ w1.toNat := Int.toNat_le_toNat hw
  have hb : h.toNat ≤ h1.toNat := Int.toNat_le_toNat hh
  exact Nat.mul_le_mul_left 2 (Nat.mul_le_mul ha hb)

/-! ## The generated maze -/

/-- The constructor on odd sizes at least 3 keeps the sizes. -/
theorem new_spec_odd (srand : Int → Nat → Shuffle) (fuel regen : Nat)
    (clock : Nat → Int) {w h : Int} (size : Int) (hw : 3 ≤ w) (hh : 3 ≤ h)
    (hwo : w % 2 = 1) (hho : h % 2 = 1) (hf : fuelBound w h ≤ fuel) :
    ∃ g, Maze.new srand fuel regen clock w h size = some ⟨g, w, h, size⟩ ∧ MazeSpec w h g := by
  have e1 : oddUp w = w := (oddUp_spec hw).2.2.2.2.1 hwo
  have e2 : oddUp h = h := (oddUp_spec hh).2.2.2.2.1 hho
  have hf2 : fuelBound (oddUp w) (oddUp h) ≤ fuel := by rw [e1, e2]; exact hf
  have hnew := new_spec srand fuel regen clock size hw hh hf2
  rw [e1, e2] at hnew
  exact hnew

/-- C1: for odd `w, h ≥ 3` and any shuffles, the constructed maze has a finite sequence
of cells from the entrance `(1, 0)` to the exit `(w - 2, h - 1)`, each with `isPath` true,
consecutive ones Manhattan-adjacent. -/
theorem entrance_exit_connected (srand : Int → Nat → Shuffle) (fuel regen : Nat)
    (clock : Nat → Int) (w h size : Int) (hw : 3 ≤ w) (hh : 3 ≤ h)
    (hwo : w % 2 = 1) (hho : h % 2 = 1) (hf : fuelBound w h ≤ fuel) :
    ∃ m, Maze.new srand fuel regen clock w h size = some m ∧
      m.getWidth = w ∧ m.getHeight = h ∧
      ∃ l : List (Int × Int), l.head? = some (1, 0) ∧ l.getLast? = some (w - 2, h - 1) ∧
        (∀ c ∈ l, m.isPath c.1 c.2 = some true) ∧ List.Chain' adj4 l := by
  obtain ⟨g, hnew, hs⟩ := new_spec_odd srand fuel regen clock size hw hh hwo hho hf
  refine ⟨_, hnew, rfl, rfl, ?_⟩
  have hr : (openGraph g).Reachable (1, 0) (w - 2, h - 1) :=
    (hs.conn _ hs.entrance).symm.trans (hs.conn _ hs.exit)
  obtain ⟨l, h1, h2, h3, h4⟩ := openPath_of_reachable hs.entrance hr
  refine ⟨l, h1, h2, ?_, h4⟩
  intro c hc
  exact isPath_of_isOpen (m := ⟨g, w, h, size⟩) hs.dim (h3 c hc)

/-- Witness of C1 on a 5 by 5 maze. -/
theorem entrance_exit_connected_witness :
    (3 : Int) ≤ 5 ∧ (5 : Int) % 2 = 1 ∧ fuelBound 5 5 ≤ 50 ∧
    ∃ m, Maze.new srandParity 50 0 (fun _ => 1) 5 5 40 = some m ∧
      m.getWidth = 5 ∧ m.getHeight = 5 ∧
      ∃ l : List (Int × Int), l.head? = some (1, 0) ∧ l.getLast? = some (5 - 2, 5 - 1) ∧
        (∀ c ∈ l, m.isPath c.1 c.2 = some true) ∧ List.Chain' adj4 l :=
  ⟨by decide, by decide, by decide,
    entrance_exit_connected srandParity 50 0 (fun _ => 1) 5 5 40 (by decide) (by decide)
      (by decide) (by decide) (by decide)⟩

/-- C2: for odd `w, h ≥ 3` and any shuffles, the entrance and the exit are Open, and a
border cell is Open exactly when it is one of the two; every other border cell is Wall. -/
theorem border_is_wall (srand : Int → Nat → Shuffle) (fuel regen : Nat)
    (clock : Nat → Int) (w h size : Int) (hw : 3 ≤ w) (hh : 3 ≤ h)
    (hwo : w % 2 = 1) (hho : h % 2 = 1) (hf : fuelBound w h ≤ fuel) :
    ∃ m, Maze.new srand fuel regen clock w h size = some m ∧
      m.maze.get? 1 0 = some 0 ∧ m.maze.get? (w - 2) (h - 1) = some 0 ∧
      ∀ x y : Int, 0 ≤ x → x < w → 0 ≤ y → y < h →
        (x = 0 ∨ x = w - 1 ∨ y = 0 ∨ y = h - 1) →
        (m.maze.get? x y = some 0 ↔ ((x = 1 ∧ y = 0) ∨ (x = w - 2 ∧ y = h - 1))) ∧
        (¬ ((x = 1 ∧ y = 0) ∨ (x = w - 2 ∧ y = h - 1)) → m.maze.get? x y = some 1) := by
  obtain ⟨g, hnew, hs⟩ := new_spec_odd srand fuel regen clock size hw hh hwo hho hf
  refine ⟨_, hnew, hs.entrance, hs.exit, ?_⟩
  intro x y hx0 hxw hy0 hyh hb
  have hiff : g.get? x y = some 0 ↔ ((x = 1 ∧ y = 0) ∨ (x = w - 2 ∧ y = h - 1)) := by
    constructor
    · intro ho
      rcases hs.shape (x, y) ho with ⟨hi, -⟩ | he | he
      · unfold Interior at hi
        simp only at hi
        omega
      · left; simpa using he
      · right; simpa using he
    · rintro (⟨rfl, rfl⟩ | ⟨rfl, rfl⟩)
      · exact hs.entrance
      · exact hs.exit
  refine ⟨hiff, ?_⟩
  intro hne
  obtain ⟨v, hv⟩ := Grid.get?_of_range hs.dim hx0 hxw hy0 hyh
  rcases hs.binary x y v hv with h0 | h1
  · subst h0
    exact absurd (hiff.mp hv) hne
  · rw [hv, h1]

/-- Witness of C2 on a 5 by 5 maze. -/
theorem border_is_wall_witness :
    (3 : Int) ≤ 5 ∧ (5 : Int) % 2 = 1 ∧ fuelBound 5 5 ≤ 50 ∧
    ∃ m, Maze.new srandParity 50 0 (fun _ => 1) 5 5 40 = some m ∧
      m.maze.get? 1 0 = some 0 ∧ m.maze.get? (5 - 2) (5 - 1) = some 0 ∧
      ∀ x y : Int, 0 ≤ x → x < 5 → 0 ≤ y → y < 5 →
        (x = 0 ∨ x = 5 - 1 ∨ y = 0 ∨ y = 5 - 1) →
        (m.maze.get? x y = some 0 ↔ ((x = 1 ∧ y = 0) ∨ (x = 5 - 2 ∧ y = 5 - 1))) ∧
        (¬ ((x = 1 ∧ y = 0) ∨ (x = 5 - 2 ∧ y = 5 - 1)) → m.maze.get? x y = some 1) :=
  ⟨by decide, by decide, by decide,
    border_is_wall srandParity 50 0 (fun _ => 1) 5 5 40 (by decide) (by decide)
      (by decide) (by decide) (by decide)⟩

/-- C3: for a request `w, h ≥ 3` the constructor stores the least odd integers that are
at least `w` and `h` (`w` itself when odd, `w + 1` when even), and the grid has exactly
`getWidth` columns of `getHeight` cells. -/
theorem constructor_dimensions (srand : Int → Nat → Shuffle) (fuel regen : Nat)
    (clock : Nat → Int) (w h size : Int) (hw : 3 ≤ w) (hh : 3 ≤ h)
    (hf : fuelBound (w + 1) (h + 1) ≤ fuel) :
    ∃ m, Maze.new srand fuel regen clock w h size = some m ∧
      (m.getWidth % 2 = 1 ∧ w ≤ m.getWidth ∧ ∀ k : Int, k % 2 = 1 → w ≤ k → m.getWidth ≤ k) ∧
      (m.getHeight % 2 = 1 ∧ h ≤ m.getHeight ∧ ∀ k : Int, k % 2 = 1 → h ≤ k → m.getHeight ≤ k) ∧
      m.getWidth = (if w % 2 = 0 then w + 1 else w) ∧
      m.getHeight = (if h % 2 = 0 then h + 1 else h) ∧
      (m.maze.length : Int) = m.getWidth ∧
      ∀ col ∈ m.maze, (col.length : Int) = m.getHeight := by
  obtain ⟨hw3, hwo, hwle, hwle1, hw1, hw0⟩ := oddUp_spec hw
  obtain ⟨hh3, hho, hhle, hhle1, hh1, hh0⟩ := oddUp_spec hh
  obtain ⟨g, hnew, hs⟩ := new_spec srand fuel regen clock size hw hh
    (le_trans (fuelBound_mono hwle1 hhle1) hf)
  refine ⟨_, hnew, ⟨hwo, hwle, ?_⟩, ⟨hho, hhle, ?_⟩, ?_, ?_, hs.dim.1, hs.dim.2⟩
  · intro k hk hwk
    show oddUp w ≤ k
    omega
  · intro k hk hhk
    show oddUp h ≤ k
    omega
  · show oddUp w = _
    split_ifs with h0
    · exact hw0 h0
    · exact hw1 (by omega)
  · show oddUp h = _
    split_ifs with h0
    · exact hh0 h0
    · exact hh1 (by omega)

/-- Witness of C3: a 4 by 4 request. -/
theorem constructor_dimensions_witness :
    (3 : Int) ≤ 4 ∧ fuelBound (4 + 1) (4 + 1) ≤ 50 ∧
    ∃ m, Maze.new srandParity 50 0 (fun _ => 1) 4 4 40 = some m ∧
      (m.getWidth % 2 = 1 ∧ 4 ≤ m.getWidth ∧ ∀ k : Int, k % 2 = 1 → 4 ≤ k → m.getWidth ≤ k) ∧
      (m.getHeight % 2 = 1 ∧ 4 ≤ m.getHeight ∧ ∀ k : Int, k % 2 = 1 → 4 ≤ k → m.getHeight ≤ k) ∧
      m.getWidth = (if (4 : Int) % 2 = 0 then 4 + 1 else 4) ∧
      m.getHeight = (if (4 : Int) % 2 = 0 then 4 + 1 else 4) ∧
      (m.maze.length : Int) = m.getWidth ∧
      ∀ col ∈ m.maze, (col.length : Int) = m.getHeight :=
  ⟨by decide, by decide,
    constructor_dimensions srandParity 50 0 (fun _ => 1) 4 4 40 (by decide) (by decide)
      (by decide)⟩

/-- C4: `isPath` answers `false` for every position outside `[0, width) × [0, height)`,
whatever the grid holds; on a maze built by the constructor the read inside the range
succeeds and `isPath` is true exactly when the cell holds `0`. -/
theorem isPath_total (srand : Int → Nat → Shuffle) (fuel regen : Nat)
    (clock : Nat → Int) (w h size : Int) (hw : 3 ≤ w) (hh : 3 ≤ h)
    (hf : fuelBound (w + 1) (h + 1) ≤ fuel) :
    (∀ (m : Maze) (x y : Int), (x < 0 ∨ x ≥ m.width ∨ y < 0 ∨ y ≥ m.height) →
      m.isPath x y = some false) ∧
    ∃ m, Maze.new srand fuel regen clock w h size = some m ∧
      ∀ x y : Int, 0 ≤ x → x < m.getWidth → 0 ≤ y → y < m.getHeight →
        ∃ v, m.maze.get? x y = some v ∧ m.isPath x y = some (decide (v = 0)) := by
  refine ⟨fun m x y hxy => isPath_out_of_range m hxy, ?_⟩
  obtain ⟨-, -, -, hwle1, -, -⟩ := oddUp_spec hw
  obtain ⟨-, -, -, hhle1, -, -⟩ := oddUp_spec hh
  obtain ⟨g, hnew, hs⟩ := new_spec srand fuel regen clock size hw hh
    (le_trans (fuelBound_mono hwle1 hhle1) hf)
  refine ⟨_, hnew, ?_⟩
  intro x y hx0 hxw hy0 hyh
  exact isPath_in_range (m := ⟨g, oddUp w, oddUp h, size⟩) hs.dim hx0 hxw hy0 hyh

/-- Witness of C4 on a 4 by 4 request. -/
theorem isPath_total_witness :
    (3 : Int) ≤ 4 ∧ fuelBound (4 + 1) (4 + 1) ≤ 50 ∧
    ((∀ (m : Maze) (x y : Int), (x < 0 ∨ x ≥ m.width ∨ y < 0 ∨ y ≥ m.height) →
      m.isPath x y = some false) ∧
    ∃ m, Maze.new srandParity 50 0 (fun _ => 1) 4 4 40 = some m ∧
      ∀ x y : Int, 0 ≤ x → x < m.getWidth → 0 ≤ y → y < m.getHeight →
        ∃ v, m.maze.get? x y = some v ∧ m.isPath x y = some (decide (v = 0))) :=
  ⟨by decide, by decide,
    isPath_total srandParity 50 0 (fun _ => 1) 4 4 40 (by decide) (by decide) (by decide)⟩

/-! ## Player movement -/

theorem adjustPosition_nonneg {p : Player} (hx : 0 ≤ p.x) (hy : 0 ≤ p.y) :
    p.adjustPosition = p := by
  unfold Player.adjustPosition
  simp only [if_neg (not_lt.mpr hx), if_neg (not_lt.mpr hy)]

/-- C5: from an Open cell, with exactly one arrow key pressed `move` steps to the
adjacent cell in that direction when `isPath` holds of it and stays otherwise (Wall or
out of range); with no key pressed it stays. -/
theorem move_legal (m : Maze) (p : Player) (hd : m.maze.Dim m.width m.height)
    (hopen : m.isPath p.x p.y = some true) :
    (∃ b, m.isPath p.x (p.y - 1) = some b ∧
      p.move m ⟨true, false, false, false⟩ = some (if b then ⟨p.x, p.y - 1⟩ else p)) ∧
    (∃ b, m.isPath p.x (p.y + 1) = some b ∧
      p.move m ⟨false, true, false, false⟩ = some (if b then ⟨p.x, p.y + 1⟩ else p)) ∧
    (∃ b, m.isPath (p.x - 1) p.y = some b ∧
      p.move m ⟨false, false, true, false⟩ = some (if b then ⟨p.x - 1, p.y⟩ else p)) ∧
    (∃ b, m.isPath (p.x + 1) p.y = some b ∧
      p.move m ⟨false, false, false, true⟩ = some (if b then ⟨p.x + 1, p.y⟩ else p)) ∧
    p.move m ⟨false, false, false, false⟩ = some p := by
  obtain ⟨hx0, -, hy0, -⟩ := isPath_true_range hopen
  have hstay : p.adjustPosition = p := adjustPosition_nonneg hx0 hy0
  have key : ∀ (tx ty : Int), ∃ b, m.isPath tx ty = some b ∧
      (if b then (⟨tx, ty⟩ : Player) else p).adjustPosition =
        (if b then (⟨tx, ty⟩ : Player) else p) := by
    intro tx ty
    obtain ⟨b, hb⟩ := isPath_some hd tx ty
    refine ⟨b, hb, ?_⟩
    cases b with
    | false => simpa using hstay
    | true =>
      obtain ⟨h1, -, h2, -⟩ := isPath_true_range hb
      simpa using adjustPosition_nonneg (p := ⟨tx, ty⟩) h1 h2
  refine ⟨?_, ?_, ?_, ?_, ?_⟩
  · obtain ⟨b, hb, hadj⟩ := key p.x (p.y - 1)
    refine ⟨b, hb, ?_⟩
    simp only [Player.move, Player.tryStep, Bool.false_eq_true, if_false, if_true, hb]
    simpa using hadj
  · obtain ⟨b, hb, hadj⟩ := key p.x (p.y + 1)
    refine ⟨b, hb, ?_⟩
    simp only [Player.move, Player.tryStep, Bool.false_eq_true, if_false, if_true, hb]
    simpa using hadj
  · obtain ⟨b, hb, hadj⟩ := key (p.x - 1) p.y
    refine ⟨b, hb, ?_⟩
    simp only [Player.move, Player.tryStep, Bool.false_eq_true, if_false, if_true, hb]
    simpa using hadj
  · obtain ⟨b, hb, hadj⟩ := key (p.x + 1) p.y
    refine ⟨b, hb, ?_⟩
    simp only [Player.move, Player.tryStep, Bool.false_eq_true, if_false, if_true, hb]
    simpa using hadj
  · simp only [Player.move, Player.tryStep, Bool.false_eq_true, if_false]
    simpa using hstay

/-- Witness of C5: the middle cell of the 3 by 3 maze. -/
theorem move_legal_witness :
    Grid.Dim [[1, 1, 1], [0, 0, 0], [1, 1, 1]] 3 3 ∧
    (Maze.isPath ⟨[[1, 1, 1], [0, 0, 0], [1, 1, 1]], 3, 3, 40⟩ 1 1 = some true) ∧
    ((∃ b, Maze.isPath ⟨[[1, 1, 1], [0, 0, 0], [1, 1, 1]], 3, 3, 40⟩ 1 (1 - 1) = some b ∧
      Player.move ⟨1, 1⟩ ⟨[[1, 1, 1], [0, 0, 0], [1, 1, 1]], 3, 3, 40⟩ ⟨true, false, false, false⟩ =
        some (if b then ⟨1, 1 - 1⟩ else ⟨1, 1⟩)) ∧
    (∃ b, Maze.isPath ⟨[[1, 1, 1], [0, 0, 0], [1, 1, 1]], 3, 3, 40⟩ 1 (1 + 1) = some b ∧
      Player.move ⟨1, 1⟩ ⟨[[1, 1, 1], [0, 0, 0], [1, 1, 1]], 3, 3, 40⟩ ⟨false, true, false, false⟩ =
        some (if b then ⟨1, 1 + 1⟩ else ⟨1, 1⟩)) ∧
    (∃ b, Maze.isPath ⟨[[1, 1, 1], [0, 0, 0], [1, 1, 1]], 3, 3, 40⟩ (1 - 1) 1 = some b ∧
      Player.move ⟨1, 1⟩ ⟨[[1, 1, 1], [0, 0, 0], [1, 1, 1]], 3, 3, 40⟩ ⟨false, false, true, false⟩ =
        some (if b then ⟨1 - 1, 1⟩ else ⟨1, 1⟩)) ∧
    (∃ b, Maze.isPath ⟨[[1, 1, 1], [0, 0, 0], [1, 1, 1]], 3, 3, 40⟩ (1 + 1) 1 = some b ∧
      Player.move ⟨1, 1⟩ ⟨[[1, 1, 1], [0, 0, 0], [1, 1, 1]], 3, 3, 40⟩ ⟨false, false, false, true⟩ =
        some (if b then ⟨1 + 1, 1⟩ else ⟨1, 1⟩)) ∧
    Player.move ⟨1, 1⟩ ⟨[[1, 1, 1], [0, 0, 0], [1, 1, 1]], 3, 3, 40⟩ ⟨false, false, false, false⟩ =
      some ⟨1, 1⟩) :=
  ⟨⟨by decide, by decide⟩, by decide,
    move_legal ⟨[[1, 1, 1], [0, 0, 0], [1, 1, 1]], 3, 3, 40⟩ ⟨1, 1⟩ ⟨by decide, by decide⟩
      (by decide)⟩

/-! ## Seeds, the clock and regeneration -/

theorem carveDirs_degenerate {w h : Int} (hwh : w < 3 ∨ h < 3) (x y : Int)
    (ds : List (Int × Int)) (g : Grid) (st : List (Int × Int)) :
    carveDirs w h x y ds g st = some (g, st) := by
  induction ds with
  | nil => rfl
  | cons d ds ih =>
    rw [carveDirs]
    have hno : ¬ (x + d.1 > 0 ∧ x + d.1 < w - 1 ∧ y + d.2 > 0 ∧ y + d.2 < h - 1) := by omega
    rw [if_neg hno]
    exact ih

theorem carveIter_degenerate {w h : Int} (hwh : w < 3 ∨ h < 3) (rs1 rs2 : Nat → Shuffle)
    (n : Nat) : ∀ s, carveIter w h rs1 n s = carveIter w h rs2 n s := by
  induction n with
  | zero => intro s; rfl
  | succ n ih =>
    rintro ⟨g, stack, k⟩
    cases stack with
    | nil => rfl
    | cons c st =>
      obtain ⟨x, y⟩ := c
      simp only [carveIter, carveDirs_degenerate hwh]
      exact ih _

theorem generatePass_degenerate {m : Maze} (hwh : m.width < 3 ∨ m.height < 3)
    (rs1 rs2 : Nat → Shuffle) (fuel : Nat) :
    generatePass rs1 fuel m = generatePass rs2 fuel m := by
  unfold generatePass carvePass carveLoop
  simp only [carveIter_degenerate hwh rs1 rs2]

theorem generateMaze_degenerate {fuel : Nat} {m : Maze} :
    ∀ regen srand clock1 clock2 seed, (m.width < 3 ∨ m.height < 3) →
      generateMaze srand fuel regen clock1 m seed = generateMaze srand fuel regen clock2 m seed := by
  intro regen
  induction regen generalizing m with
  | zero =>
    intro srand c1 c2 seed hwh
    unfold generateMaze
    rw [generatePass_degenerate hwh (seedShuffles srand (c1 0) seed)
      (seedShuffles srand (c2 0) seed)]
  | succ r ih =>
    intro srand c1 c2 seed hwh
    unfold generateMaze
    rw [generatePass_degenerate hwh (seedShuffles srand (c1 0) seed)
      (seedShuffles srand (c2 0) seed)]
    cases generatePass (seedShuffles srand (c2 0) seed) fuel m with
    | none => rfl
    | some r1 =>
      obtain ⟨g, pe⟩ := r1
      cases pe with
      | true => rfl
      | false =>
        simp only [Bool.false_eq_true, if_false]
        exact ih (m := { m with maze := g }) srand _ _ 0 hwh

theorem scanColumn_false {g : Grid} {x : Int} {n : Nat} (h : scanColumn g x n = some false) :
    ∀ k : Nat, k < n → g.get? x k ≠ some 0 := by
  induction n with
  | zero => intro k hk; omega
  | succ n ih =>
    intro k hk
    rw [scanColumn] at h
    cases hg : g.get? x (n : Int) with
    | none => rw [hg] at h; exact absurd h (by simp)
    | some v =>
      rw [hg] at h
      simp only at h
      by_cases hv : v = 0
      · rw [if_pos hv] at h; exact absurd h (by simp)
      · rw [if_neg hv] at h
        by_cases hkn : k = n
        · subst hkn
          rw [hg]
          simpa using hv
        · exact ih h k (by omega)

theorem scanFrom_true_of_open {h : Int} {g g1 : Grid} {b : Bool} {x : Int} {n : Nat}
    (hh : 3 ≤ h) (ho : g.get? x 0 = some 0) (hs : scanFrom h g x (n + 1) = some (g1, b)) :
    b = true := by
  rw [scanFrom] at hs
  cases hc : scanColumn g x (h - 1).toNat with
  | none => rw [hc] at hs; exact absurd hs (by simp)
  | some c =>
    cases c with
    | true =>
      rw [hc] at hs
      simp only at hs
      cases hset : g.set x (h - 2) 0 with
      | none => rw [hset] at hs; exact absurd hs (by simp)
      | some g2 =>
        rw [hset] at hs
        simp only [Option.some.injEq, Prod.mk.injEq] at hs
        exact hs.2.symm
    | false =>
      exfalso
      exact scanColumn_false hc 0 (by omega) (by simpa using ho)

/-- A pass that ends with `pathExists` false ran on a maze of width or height below 3. -/
theorem pathExists_false {rs : Nat → Shuffle} {fuel : Nat} {m : Maze} {g : Grid}
    (hp : generatePass rs fuel m = some (g, false)) : m.width < 3 ∨ m.height < 3 := by
  by_contra hcon
  have hw : 3 ≤ m.width := by omega
  have hh : 3 ≤ m.height := by omega
  unfold generatePass at hp
  cases hcp : carvePass rs fuel m with
  | none => rw [hcp] at hp; exact absurd hp (by simp)
  | some g3 =>
    rw [hcp] at hp
    simp only at hp
    have ho : g3.get? 1 0 = some 0 := by
      unfold carvePass at hcp
      cases h0 : m.maze.set 1 1 0 with
      | none => rw [h0] at hcp; exact absurd hcp (by simp)
      | some g0 =>
        rw [h0] at hcp
        simp only at hcp
        cases h1 : carveLoop m.width m.height rs fuel ⟨g0, [(1, 1)], 0⟩ with
        | none => rw [h1] at hcp; exact absurd hcp (by simp)
        | some g1 =>
          rw [h1] at hcp
          simp only at hcp
          cases h2 : g1.set 1 0 0 with
          | none => rw [h2] at hcp; exact absurd hcp (by simp)
          | some g2 =>
            rw [h2] at hcp
            simp only at hcp
            rw [Grid.get?_set hcp, Grid.get?_set h2]
            rw [if_neg (by omega)]
            simp
    obtain ⟨n, hn⟩ : ∃ n, (m.width - 2).toNat = n + 1 := ⟨(m.width - 3).toNat, by omega⟩
    rw [hn] at hp
    exact absurd (scanFrom_true_of_open hh ho hp) (by simp)

/-- With seed `0` and the clock reading 1, the 5 by 5 maze of the example source. -/
theorem seed_zero_clock_one :
    (generateMaze srandParity 50 0 (fun _ => 1) ⟨wallGrid 5 5, 5, 5, 40⟩ 0).map (fun m => m.maze) =
      some [[1, 1, 1, 1, 1], [0, 0, 0, 0, 1], [1, 0, 1, 1, 1], [1, 0, 0, 0, 0], [1, 1, 1, 1, 1]] := by
  decide

/-- With seed `0` and the clock reading 2, the 5 by 5 maze of the example source. -/
theorem seed_zero_clock_two :
    (generateMaze srandParity 50 0 (fun _ => 2) ⟨wallGrid 5 5, 5, 5, 40⟩ 0).map (fun m => m.maze) =
      some [[1, 1, 1, 1, 1], [0, 0, 0, 0, 1], [1, 0, 1, 0, 1], [1, 0, 1, 0, 0], [1, 1, 1, 1, 1]] := by
  decide

/-- C6, as stated, fails for seed `0`: with the seed argument `0` the source is seeded
from the clock, and two clock values give two different 5 by 5 grids. -/
theorem seed_zero_follows_clock :
    generateMaze srandParity 50 0 (fun _ => 1) ⟨wallGrid 5 5, 5, 5, 40⟩ 0 ≠
      generateMaze srandParity 50 0 (fun _ => 2) ⟨wallGrid 5 5, 5, 5, 40⟩ 0 := by
  decide

/-- C6, amended: for every maze state and every nonzero seed, `generateMaze` returns
the same result whatever the clock reads. -/
theorem nonzero_seed_deterministic (srand : Int → Nat → Shuffle) (fuel regen : Nat)
    (clock1 clock2 : Nat → Int) (m : Maze) (seed : Int) (hseed : seed ≠ 0) :
    generateMaze srand fuel regen clock1 m seed = generateMaze srand fuel regen clock2 m seed := by
  have e : ∀ c, seedShuffles srand c seed = srand seed := by
    intro c
    unfold seedShuffles
    rw [if_pos hseed]
  cases regen with
  | zero =>
    unfold generateMaze
    rw [e, e]
  | succ r =>
    unfold generateMaze
    rw [e (clock1 0), e (clock2 0)]
    cases hgp : generatePass (srand seed) fuel m with
    | none => rfl
    | some r1 =>
      obtain ⟨g, pe⟩ := r1
      cases pe with
      | true => rfl
      | false =>
        simp only [Bool.false_eq_true, if_false]
        have hwh : m.width < 3 ∨ m.height < 3 := pathExists_false hgp
        exact generateMaze_degenerate (m := { m with maze := g }) r srand _ _ 0 hwh

/-- Witness of amended C6: seed 42 on the 5 by 5 all-Wall grid with two clocks. -/
theorem nonzero_seed_deterministic_witness :
    (42 : Int) ≠ 0 ∧
    generateMaze srandParity 50 0 (fun _ => 1) ⟨wallGrid 5 5, 5, 5, 40⟩ 42 =
      generateMaze srandParity 50 0 (fun _ => 2) ⟨wallGrid 5 5, 5, 5, 40⟩ 42 :=
  ⟨by decide,
    nonzero_seed_deterministic srandParity 50 0 (fun _ => 1) (fun _ => 2)
      ⟨wallGrid 5 5, 5, 5, 40⟩ 42 (by decide)⟩

/-- C7: for odd `w, h ≥ 3` and any shuffles, every Open interior cell with both
coordinates odd is joined to `(1, 1)` by Manhattan-adjacent Open cells, in the constructed
maze and in the grid after any number of iterations of the carving loop. -/
theorem rooms_joined_to_start (srand : Int → Nat → Shuffle) (fuel regen : Nat)
    (clock : Nat → Int) (w h size : Int) (hw : 3 ≤ w) (hh : 3 ≤ h)
    (hwo : w % 2 = 1) (hho : h % 2 = 1) (hf : fuelBound w h ≤ fuel) :
    (∃ m, Maze.new srand fuel regen clock w h size = some m ∧
      ∀ x y : Int, 0 < x → x < w - 1 → 0 < y → y < h - 1 → x % 2 = 1 → y % 2 = 1 →
        m.maze.isOpen (x, y) → m.maze.OpenPath (1, 1) (x, y)) ∧
    (∀ (rs : Nat → Shuffle) (n : Nat), ∃ g0 s, (wallGrid w h).set 1 1 0 = some g0 ∧
      carveIter w h rs n ⟨g0, [(1, 1)], 0⟩ = some s ∧
      ∀ x y : Int, 0 < x → x < w - 1 → 0 < y → y < h - 1 → x % 2 = 1 → y % 2 = 1 →
        s.grid.isOpen (x, y) → s.grid.OpenPath (1, 1) (x, y)) := by
  constructor
  · obtain ⟨g, hnew, hs⟩ := new_spec_odd srand fuel regen clock size hw hh hwo hho hf
    refine ⟨_, hnew, ?_⟩
    intro x y _ _ _ _ _ _ ho
    exact openPath_of_reachable (hs.rooms _ ⟨by unfold Interior; simp only; omega, rfl, rfl⟩)
      (hs.conn _ ho)
  · intro rs n
    have hd := wallGrid_dim (show 0 ≤ w by omega) (show 0 ≤ h by omega)
    obtain ⟨v0, hv0⟩ := Grid.get?_of_range hd (show (0 : Int) ≤ 1 by omega)
      (show (1 : Int) < w by omega) (show (0 : Int) ≤ 1 by omega) (show (1 : Int) < h by omega)
    obtain ⟨g0, hs0⟩ := Grid.set_of_get? 0 hv0
    obtain ⟨inv0, -⟩ := init_inv hw hh hs0
    obtain ⟨s1, hrun, inv1, -, -⟩ := carveIter_spec rs n ⟨g0, [(1, 1)], 0⟩ inv0
    refine ⟨g0, s1, hs0, hrun, ?_⟩
    intro x y _ _ _ _ _ _ ho
    exact openPath_of_reachable inv1.start (inv1.conn _ ho)

/-- Witness of C7 on a 5 by 5 maze. -/
theorem rooms_joined_to_start_witness :
    (3 : Int) ≤ 5 ∧ (5 : Int) % 2 = 1 ∧ fuelBound 5 5 ≤ 50 ∧
    ((∃ m, Maze.new srandParity 50 0 (fun _ => 1) 5 5 40 = some m ∧
      ∀ x y : Int, 0 < x → x < 5 - 1 → 0 < y → y < 5 - 1 → x % 2 = 1 → y % 2 = 1 →
        m.maze.isOpen (x, y) → m.maze.OpenPath (1, 1) (x, y)) ∧
    (∀ (rs : Nat → Shuffle) (n : Nat), ∃ g0 s, (wallGrid 5 5).set 1 1 0 = some g0 ∧
      carveIter 5 5 rs n ⟨g0, [(1, 1)], 0⟩ = some s ∧
      ∀ x y : Int, 0 < x → x < 5 - 1 → 0 < y → y < 5 - 1 → x % 2 = 1 → y % 2 = 1 →
        s.grid.isOpen (x, y) → s.grid.OpenPath (1, 1) (x, y))) :=
  ⟨by decide, by decide, by decide,
    rooms_joined_to_start srandParity 50 0 (fun _ => 1) 5 5 40 (by decide) (by decide)
      (by decide) (by decide) (by decide)⟩

/-- C8: for odd `w, h ≥ 3` and any shuffles, the graph of Manhattan-adjacent Open cells of
the constructed maze has no cycle, and any two Open cells are joined by exactly one
simple path. -/
theorem maze_is_perfect (srand : Int → Nat → Shuffle) (fuel regen : Nat)
    (clock : Nat → Int) (w h size : Int) (hw : 3 ≤ w) (hh : 3 ≤ h)
    (hwo : w % 2 = 1) (hho : h % 2 = 1) (hf : fuelBound w h ≤ fuel) :
    ∃ m, Maze.new srand fuel regen clock w h size = some m ∧
      (openGraph m.maze).IsAcyclic ∧
      ∀ u v : Int × Int, m.maze.isOpen u → m.maze.isOpen v →
        ∃! p : (openGraph m.maze).Walk u v, p.IsPath := by
  obtain ⟨g, hnew, hs⟩ := new_spec_odd srand fuel regen clock size hw hh hwo hho hf
  refine ⟨_, hnew, hs.acyclic, ?_⟩
  intro u v hu hv
  have hr : (openGraph g).Reachable u v := (hs.conn u hu).symm.trans (hs.conn v hv)
  obtain ⟨p⟩ := hr
  refine ⟨p.toPath.1, p.toPath.2, ?_⟩
  intro q hq
  exact congrArg Subtype.val (hs.acyclic.path_unique ⟨q, hq⟩ p.toPath)

/-- Witness of C8 on a 5 by 5 maze. -/
theorem maze_is_perfect_witness :
    (3 : Int) ≤ 5 ∧ (5 : Int) % 2 = 1 ∧ fuelBound 5 5 ≤ 50 ∧
    ∃ m, Maze.new srandParity 50 0 (fun _ => 1) 5 5 40 = some m ∧
      (openGraph m.maze).IsAcyclic ∧
      ∀ u v : Int × Int, m.maze.isOpen u → m.maze.isOpen v →
        ∃! p : (openGraph m.maze).Walk u v, p.IsPath :=
  ⟨by decide, by decide, by decide,
    maze_is_perfect srandParity 50 0 (fun _ => 1) 5 5 40 (by decide) (by decide)
      (by decide) (by decide) (by decide)⟩

/-- C9: for odd `w, h ≥ 3` and any shuffles, seed and clock, on the grid built by
`initializeMaze` the carving loop ends, the scan sets `pathExists`, and `generateMaze`
returns without any regeneration call; and on any maze state a pass can leave
`pathExists` false only when `width < 3` or `height < 3`. -/
theorem single_pass (srand : Int → Nat → Shuffle) (fuel regen : Nat)
    (clock : Nat → Int) (w h size seed : Int) (hw : 3 ≤ w) (hh : 3 ≤ h)
    (hwo : w % 2 = 1) (hho : h % 2 = 1) (hf : fuelBound w h ≤ fuel) :
    (∃ m0 g0 g1 g, initializeMaze ⟨[], w, h, size⟩ = some m0 ∧
      m0.maze.set 1 1 0 = some g0 ∧
      carveLoop w h (seedShuffles srand (clock 0) seed) fuel ⟨g0, [(1, 1)], 0⟩ = some g1 ∧
      generatePass (seedShuffles srand (clock 0) seed) fuel m0 = some (g, true) ∧
      generateMaze srand fuel 0 clock m0 seed = some { m0 with maze := g } ∧
      generateMaze srand fuel regen clock m0 seed = some { m0 with maze := g }) ∧
    (∀ (rs : Nat → Shuffle) (fuel1 : Nat) (m : Maze) (g : Grid),
      generatePass rs fuel1 m = some (g, false) → m.width < 3 ∨ m.height < 3) := by
  refine ⟨?_, fun rs fuel1 m g hp => pathExists_false hp⟩
  have hinit : initializeMaze ⟨[], w, h, size⟩ = some ⟨wallGrid w h, w, h, size⟩ := by
    unfold initializeMaze
    simp only
    rw [if_pos ⟨by omega, by omega⟩]
    rfl
  obtain ⟨g0, g1, hs0, hloop, -⟩ :=
    loop_spec (seedShuffles srand (clock 0) seed) hw hh hf
  obtain ⟨g, -, -, hgp, hgen0, -⟩ := generate_spec srand fuel 0 clock size seed hw hh hwo hho hf
  obtain ⟨g9, -, -, hgp9, hgen, -⟩ := generate_spec srand fuel regen clock size seed hw hh hwo hho hf
  have e : g9 = g := by
    rw [hgp] at hgp9
    simp only [Option.some.injEq, Prod.mk.injEq, and_true] at hgp9
    exact hgp9.symm
  subst e
  exact ⟨_, g0, g1, g9, hinit, hs0, hloop, hgp, hgen0, hgen⟩

/-- Witness of C9 on a 5 by 5 maze with seed 0. -/
theorem single_pass_witness :
    (3 : Int) ≤ 5 ∧ (5 : Int) % 2 = 1 ∧ fuelBound 5 5 ≤ 50 ∧
    ((∃ m0 g0 g1 g, initializeMaze ⟨[], 5, 5, 40⟩ = some m0 ∧
      m0.maze.set 1 1 0 = some g0 ∧
      carveLoop 5 5 (seedShuffles srandParity ((fun _ => 1) 0) 0) 50 ⟨g0, [(1, 1)], 0⟩ = some g1 ∧
      generatePass (seedShuffles srandParity ((fun _ => 1) 0) 0) 50 m0 = some (g, true) ∧
      generateMaze srandParity 50 0 (fun _ => 1) m0 0 = some { m0 with maze := g } ∧
      generateMaze srandParity 50 7 (fun _ => 1) m0 0 = some { m0 with maze := g }) ∧
    (∀ (rs : Nat → Shuffle) (fuel1 : Nat) (m : Maze) (g : Grid),
      generatePass rs fuel1 m = some (g, false) → m.width < 3 ∨ m.height < 3)) :=
  ⟨by decide, by decide, by decide,
    single_pass srandParity 50 7 (fun _ => 1) 5 5 40 0 (by decide) (by decide)
      (by decide) (by decide) (by decide)⟩

/-- C10: for odd `w, h ≥ 3` and any shuffles, every interior cell with both coordinates
odd is Open after the carve, in particular the cell `(w - 2, h - 2)` that `hasWon`
tests, and the scan returns the grid it was given. -/
theorem all_rooms_carved (srand : Int → Nat → Shuffle) (fuel regen : Nat)
    (clock : Nat → Int) (w h size : Int) (hw : 3 ≤ w) (hh : 3 ≤ h)
    (hwo : w % 2 = 1) (hho : h % 2 = 1) (hf : fuelBound w h ≤ fuel) :
    ∃ m0 g, initializeMaze ⟨[], w, h, size⟩ = some m0 ∧
      carvePass (seedShuffles srand (clock 0) 0) fuel m0 = some g ∧
      scanColumn g 1 (h - 1).toNat = some true ∧ g.set 1 (h - 2) 0 = some g ∧
      scanFrom h g 1 (w - 2).toNat = some (g, true) ∧
      Maze.new srand fuel regen clock w h size = some ⟨g, w, h, size⟩ ∧
      (∀ x y : Int, 0 < x → x < w - 1 → 0 < y → y < h - 1 → x % 2 = 1 → y % 2 = 1 →
        g.get? x y = some 0) ∧
      Maze.isPath ⟨g, w, h, size⟩ (w - 2) (h - 2) = some true ∧
      Player.hasWon ⟨w - 2, h - 2⟩ ⟨g, w, h, size⟩ = true := by
  have hinit : initializeMaze ⟨[], w, h, size⟩ = some ⟨wallGrid w h, w, h, size⟩ := by
    unfold initializeMaze
    simp only
    rw [if_pos ⟨by omega, by omega⟩]
    rfl
  obtain ⟨g, hcp, hscan, -, hgen, hs⟩ := generate_spec srand fuel regen clock size 0 hw hh hwo hho hf
  have hnew : Maze.new srand fuel regen clock w h size = some ⟨g, w, h, size⟩ := by
    have e1 : oddUp w = w := (oddUp_spec hw).2.2.2.2.1 hwo
    have e2 : oddUp h = h := (oddUp_spec hh).2.2.2.2.1 hho
    rw [new_eq srand fuel regen clock size hw hh, e1, e2, hgen]
  have hcorner : g.isOpen (1, h - 2) := hs.rooms _ (corner_room hw hh hho)
  refine ⟨_, g, hinit, hcp, scanColumn_top hh hcorner, Grid.set_same hcorner, hscan, hnew,
    ?_, ?_, ?_⟩
  · intro x y hx0 hxw hy0 hyh hx hy
    exact hs.rooms (x, y) ⟨⟨hx0, hxw, hy0, hyh⟩, hx, hy⟩
  · exact isPath_of_isOpen (m := ⟨g, w, h, size⟩) (c := (w - 2, h - 2)) hs.dim
      (hs.rooms _ (win_room hw hh hwo hho))
  · simp [Player.hasWon, Maze.getWidth, Maze.getHeight]

/-- Witness of C10 on a 5 by 5 maze. -/
theorem all_rooms_carved_witness :
    (3 : Int) ≤ 5 ∧ (5 : Int) % 2 = 1 ∧ fuelBound 5 5 ≤ 50 ∧
    ∃ m0 g, initializeMaze ⟨[], 5, 5, 40⟩ = some m0 ∧
      carvePass (seedShuffles srandParity ((fun _ => 1) 0) 0) 50 m0 = some g ∧
      scanColumn g 1 ((5 : Int) - 1).toNat = some true ∧ g.set 1 (5 - 2) 0 = some g ∧
      scanFrom 5 g 1 ((5 : Int) - 2).toNat = some (g, true) ∧
      Maze.new srandParity 50 0 (fun _ => 1) 5 5 40 = some ⟨g, 5, 5, 40⟩ ∧
      (∀ x y : Int, 0 < x → x < 5 - 1 → 0 < y → y < 5 - 1 → x % 2 = 1 → y % 2 = 1 →
        g.get? x y = some 0) ∧
      Maze.isPath ⟨g, 5, 5, 40⟩ (5 - 2) (5 - 2) = some true ∧
      Player.hasWon ⟨5 - 2, 5 - 2⟩ ⟨g, 5, 5, 40⟩ = true :=
  ⟨by decide, by decide, by decide,
    all_rooms_carved srandParity 50 0 (fun _ => 1) 5 5 40 (by decide) (by decide)
      (by decide) (by decide) (by decide)⟩

end MazeGame
